import Mathlib

/-!
# Verification of the Guiguts 2.0 text-rewrap and HTML-conversion core

This development gives a shallow embedding, in Lean, of the paragraph
re-wrapping engine and the plain-text-to-HTML converter of the Guiguts 2.0
post-processing tool (files `guiguts/maintext.py` and
`guiguts/html_convert.py`), and proves properties of that embedding.

Text is modelled as `List Char` (named `Str` below); a document is a list of
lines (`List Str`), mirroring the line-addressable Tk text buffer used by the
source.  Machine reals appearing in the source (`len(replacement) /
len(old_text)` and the `round` builtin) are modelled by exact rational
arithmetic over `ℚ`.
-/

/-- Text is a list of characters. -/
abbrev Str := List Char

/-- Whitespace test used for the `\s` / `strip` operations of the source
(space, newline, tab, carriage return). -/
def isWS (c : Char) : Bool :=
  c = ' ' || c = '\n' || c = '\t' || c = '\r'

/-- The page-mark pin character `\x7f` (`PAGEMARK_PIN` in `maintext.py`). -/
def PAGEMARK_PIN : Char := Char.ofNat 127

/-- Split a string into its maximal whitespace-free words, dropping all
whitespace; accumulator version (`acc` holds the current word reversed). -/
def wordsAux : Str → Str → List Str
  | [], [] => []
  | [], acc => [acc.reverse]
  | c :: rest, acc =>
    if isWS c then
      match acc with
      | [] => wordsAux rest []
      | _ => acc.reverse :: wordsAux rest []
    else wordsAux rest (c :: acc)

/-- The whitespace-separated words of a string. -/
def wordsOf (s : Str) : List Str := wordsAux s []

/-- Join words with single spaces. -/
def joinSp : List Str → Str
  | [] => []
  | [w] => w
  | w :: ws => w ++ ' ' :: joinSp ws

/-- Join lines with newlines. -/
def joinNL : List Str → Str
  | [] => []
  | [l] => l
  | l :: ls => l ++ '\n' :: joinNL ls

/-- `paragraph.strip()` followed by `re.sub(r"\s+", " ", paragraph)` from
`wrap_paragraph`: leading/trailing whitespace removed and every interior
whitespace run collapsed to a single space.  Equivalently, the words of the
paragraph joined by single spaces. -/
def collapseStrip (s : Str) : Str := joinSp (wordsOf s)

section PinNormalization

/-- `re.sub(rf"(?<={PAGEMARK_PIN}) (?={PAGEMARK_PIN})", "", paragraph)` from
`wrap_paragraph`: remove every space lying between two pin characters. -/
def rmSpaceBetweenPins : Str → Str
  | [] => []
  | [c] => [c]
  | [c, d] => [c, d]
  | c :: d :: e :: rest =>
    if c = PAGEMARK_PIN && d = ' ' && e = PAGEMARK_PIN then
      c :: rmSpaceBetweenPins (e :: rest)
    else c :: rmSpaceBetweenPins (d :: e :: rest)

/-- `re.sub(rf"(( |^){PAGEMARK_PIN}+) ", r"\\1", paragraph)` from
`wrap_paragraph`: delete the space that follows a run of pins when the run is
preceded by a space or the start of the text.  Single-pass scanner:
`afterSpace` is true when the previous position was the start of the text or
an emitted space (the `( |^)` group); `runActive` is true while inside a pin
run that such a space/start preceded, in which case the single space ending
the run is dropped (the regex consumes it and the replacement keeps only the
group). -/
def rmSpAft (afterSpace runActive : Bool) : Str → Str
  | [] => []
  | c :: rest =>
    if c = PAGEMARK_PIN then c :: rmSpAft false (runActive || afterSpace) rest
    else if c = ' ' then
      if runActive then rmSpAft false false rest
      else ' ' :: rmSpAft true false rest
    else c :: rmSpAft false false rest

/-- Scanner state for the third substitution
`re.sub(rf" ({PAGEMARK_PIN}+( |$)) ", r"\\1", paragraph)` (note the literal
pattern requires a space *after* the `( |$)` group, so a match is
` PIN+␣␣`, replaced by `PIN+␣`): `idle` = not in a match attempt; `sp` = a
space is held as potential match start; `run n` = held space followed by `n`
pins so far; `runsp n` = held space, `n` pins and the group's space seen,
one more space completes the match. -/
inductive BefState where
  | idle : BefState
  | sp : BefState
  | run : ℕ → BefState
  | runsp : ℕ → BefState

/-- A run of `n` pin characters. -/
def pinRunStr (n : ℕ) : Str := List.replicate n PAGEMARK_PIN

/-- Single-pass scanner for the third substitution of `wrap_paragraph`
(see `BefState`).  On a failed match attempt the held prefix is emitted
literally and scanning resumes at the first position that could start a new
match. -/
def rmSpBef (st : BefState) : Str → Str
  | [] =>
    match st with
    | .idle => []
    | .sp => [' ']
    | .run n => ' ' :: pinRunStr n
    | .runsp n => ' ' :: pinRunStr n ++ [' ']
  | c :: rest =>
    match st with
    | .idle =>
      if c = ' ' then rmSpBef .sp rest
      else c :: rmSpBef .idle rest
    | .sp =>
      if c = PAGEMARK_PIN then rmSpBef (.run 1) rest
      else if c = ' ' then ' ' :: rmSpBef .sp rest
      else ' ' :: c :: rmSpBef .idle rest
    | .run n =>
      if c = PAGEMARK_PIN then rmSpBef (.run (n + 1)) rest
      else if c = ' ' then rmSpBef (.runsp n) rest
      else ' ' :: pinRunStr n ++ c :: rmSpBef .idle rest
    | .runsp n =>
      if c = ' ' then pinRunStr n ++ ' ' :: rmSpBef .idle rest
      else if c = PAGEMARK_PIN then ' ' :: pinRunStr n ++ rmSpBef (.run 1) rest
      else ' ' :: pinRunStr n ++ ' ' :: c :: rmSpBef .idle rest

/-- The three pin-spacing normalisation substitutions of `wrap_paragraph`,
in source order. -/
def normalizePins (s : Str) : Str :=
  rmSpBef .idle (rmSpAft true false (rmSpaceBetweenPins s))

end PinNormalization

/-! ## Paragraph wrapper

`WrapParams` is from `maintext.py`; the greedy filling itself is performed in
the source by the `TextWrapper` object imported from `guiguts.utilities`,
whose code is not part of this snapshot. -/

/-- `WrapParams` from `maintext.py`: left margin, first-line left margin and
right margin. -/
structure WrapParams where
  left : ℕ
  first : ℕ
  right : ℕ
deriving Repr, DecidableEq

/-- Length of a rendered line holding indent `ind` and words `ws`
(single spaces between words). -/
def lineLen (ind : ℕ) (ws : List Str) : ℕ :=
  ind + (ws.map List.length).sum + (ws.length - 1)

/-- Modelled from the spec: the greedy filling performed by
`TextWrapper.fill` (class `TextWrapper` of `guiguts/utilities.py` is absent
from this snapshot).  Per the spec: greedy line-breaking at word boundaries
such that each output line's length does not exceed `right`, a word that
does not fit starting a fresh line, and a single word longer than the
available width placed alone on its own line without being split.
A line is `(indent, words)`. -/
def greedyAux (right left : ℕ) : List Str → ℕ → List Str → List (ℕ × List Str)
  | [], ind, line => [(ind, line)]
  | w :: ws, ind, line =>
    if line.isEmpty then greedyAux right left ws ind [w]
    else if lineLen ind (line ++ [w]) ≤ right then
      greedyAux right left ws ind (line ++ [w])
    else (ind, line) :: greedyAux right left ws left [w]

/-- Greedy wrap of a word list: first line indented by `first`, subsequent
lines by `left`, target width `right`. -/
def greedyWrap (p : WrapParams) (ws : List Str) : List (ℕ × List Str) :=
  match ws with
  | [] => []
  | _ => greedyAux p.right p.left ws p.first []

/-- Render one wrapped line: indent spaces then the words joined by single
spaces. -/
def renderLine (l : ℕ × List Str) : Str :=
  List.replicate l.1 ' ' ++ joinSp l.2

/-- Render wrapped lines, joined by newlines. -/
def renderLines (ls : List (ℕ × List Str)) : Str :=
  joinNL (ls.map renderLine)

/-- The wrapped-line structure produced by `wrap_paragraph` for a paragraph
`s` (before rendering): whitespace normalisation and pin-spacing
normalisation from `wrap_paragraph`, then the greedy fill. -/
def wrapParagraphLines (p : WrapParams) (s : Str) : List (ℕ × List Str) :=
  greedyWrap p (wordsOf (normalizePins (collapseStrip s)))

/-- `wrap_paragraph`'s text-to-text transformation (the wrapped text that
replaces the paragraph; the source appends a final newline when editing it
back into the buffer, which is not part of the wrapped text itself). -/
def wrapText (p : WrapParams) (s : Str) : Str :=
  renderLines (wrapParagraphLines p s)

/-! ## Page-mark preservation during replacement
(`MainText._replace_preserving_pagemarks_block`, `maintext.py`)

The source collects, for each page mark lying inside the replaced range, the
length of text from the start of the range to the mark, then rescales each
length by `len(replacement) / len(old_text)` using Python's `round` builtin
(round-half-to-even).  The real-number arithmetic of the source is modelled
exactly over `ℚ`. -/

/-- Python's `round` builtin on a rational: round to nearest, ties to even. -/
def pyRound (q : ℚ) : ℤ :=
  if q - ⌊q⌋ < 1/2 then ⌊q⌋
  else if 1/2 < q - ⌊q⌋ then ⌊q⌋ + 1
  else if ⌊q⌋ % 2 = 0 then ⌊q⌋ else ⌊q⌋ + 1

/-- `round(x * ratio)` for one entry of `len_to_marks`, where
`ratio = len(replacement) / len(old)`. -/
def scaleLenToMark (x oldLen newLen : ℕ) : ℤ :=
  pyRound ((x * newLen : ℚ) / oldLen)

/-- The rescaling of the whole `len_to_marks` list (the source skips the
scaling when the list is empty; the map agrees with that). -/
def scaleLensToMarks (xs : List ℕ) (oldLen newLen : ℕ) : List ℤ :=
  xs.map (fun x => scaleLenToMark x oldLen newLen)

theorem pyRound_mem (q : ℚ) : pyRound q = ⌊q⌋ ∨ pyRound q = ⌊q⌋ + 1 := by
  unfold pyRound
  split
  · exact Or.inl rfl
  · split
    · exact Or.inr rfl
    · split
      · exact Or.inl rfl
      · exact Or.inr rfl

theorem abs_pyRound_sub_le (q : ℚ) : |(pyRound q : ℚ) - q| ≤ 1/2 := by
  have hfl : (⌊q⌋ : ℚ) ≤ q := Int.floor_le q
  have hfu : q < ⌊q⌋ + 1 := Int.lt_floor_add_one q
  unfold pyRound
  split
  · rename_i h
    rw [abs_le]
    constructor <;> push_cast <;> linarith
  · rename_i h
    push_neg at h
    split
    · rename_i h2
      rw [abs_le]
      constructor <;> push_cast <;> linarith
    · rename_i h2
      push_neg at h2
      have heq : q - ⌊q⌋ = 1/2 := le_antisymm h2 h
      split
      · rw [abs_le]
        constructor <;> push_cast <;> linarith
      · rw [abs_le]
        constructor <;> push_cast <;> linarith

theorem pyRound_nonneg (q : ℚ) (hq : 0 ≤ q) : 0 ≤ pyRound q := by
  have h0 : (0 : ℤ) ≤ ⌊q⌋ := Int.floor_nonneg.mpr hq
  rcases pyRound_mem q with h | h <;> omega

theorem pyRound_le_of_le (q : ℚ) (n : ℕ) (hq : q ≤ n) : pyRound q ≤ n := by
  have hfl : ⌊q⌋ ≤ (n : ℤ) := by
    have h := Int.floor_le_floor hq
    simpa using h
  rcases pyRound_mem q with h | h
  · omega
  · rcases lt_or_eq_of_le hfl with hl | he
    · omega
    · exfalso
      have hfl' : (⌊q⌋ : ℚ) ≤ q := Int.floor_le q
      have hup : q ≤ (⌊q⌋ : ℚ) := by
        rw [he]
        exact_mod_cast hq
      have hlt : q - (⌊q⌋ : ℚ) < 1/2 := by linarith
      unfold pyRound at h
      rw [if_pos hlt] at h
      omega

/-- C1 helper statement packaged for a single mark. -/
theorem scaleLenToMark_bounds (x oldLen newLen : ℕ)
    (hold : 0 < oldLen) (hx : x ≤ oldLen) :
    |(scaleLenToMark x oldLen newLen : ℚ) * oldLen - x * newLen|
        ≤ (oldLen : ℚ) / 2
      ∧ 0 ≤ scaleLenToMark x oldLen newLen
      ∧ scaleLenToMark x oldLen newLen ≤ newLen := by
  have holdQ : (0 : ℚ) < oldLen := by exact_mod_cast hold
  set q : ℚ := (x * newLen : ℚ) / oldLen with hq
  have hq0 : 0 ≤ q := by
    apply div_nonneg _ (le_of_lt holdQ)
    positivity
  have hqn : q ≤ newLen := by
    rw [hq, div_le_iff₀ holdQ]
    have hxQ : (x : ℚ) ≤ oldLen := by exact_mod_cast hx
    have h0 : (0 : ℚ) ≤ newLen := by positivity
    nlinarith
  refine ⟨?_, pyRound_nonneg q hq0, pyRound_le_of_le q newLen hqn⟩
  have habs := abs_pyRound_sub_le q
  have hmul : |(pyRound q : ℚ) - q| * oldLen ≤ (1/2) * oldLen :=
    mul_le_mul_of_nonneg_right habs (le_of_lt holdQ)
  have hqo : q * oldLen = x * newLen := by
    field_simp [hq]
  calc |(scaleLenToMark x oldLen newLen : ℚ) * oldLen - x * newLen|
      = |((pyRound q : ℚ) - q) * oldLen| := by
        rw [sub_mul, hqo]
        rfl
    _ = |(pyRound q : ℚ) - q| * |(oldLen : ℚ)| := abs_mul _ _
    _ = |(pyRound q : ℚ) - q| * oldLen := by
        rw [abs_of_nonneg (le_of_lt holdQ)]
    _ ≤ (1/2) * oldLen := hmul
    _ = (oldLen : ℚ) / 2 := by ring

/-- C1: when a text range containing page-mark pins is replaced
(`_replace_preserving_pagemarks_block`), each page mark's distance from the
start of the replaced range is rescaled by the ratio of replacement length to
original length, rounded to the nearest integer; hence each rescaled
distance differs from the exact proportional position by at most half a
character (`|y·oldLen − x·newLen| ≤ oldLen/2` for the rescaled distance `y`
of a mark at original distance `x`) and stays within the replacement text
(`0 ≤ y ≤ newLen`), so the pins keep their approximate proportional
positions and never all collapse to one end. -/
theorem C1_pagemark_rescaling (xs : List ℕ) (oldLen newLen : ℕ)
    (hold : 0 < oldLen) (hxs : ∀ x ∈ xs, x ≤ oldLen) :
    List.Forall₂
      (fun (x : ℕ) (y : ℤ) =>
        |(y : ℚ) * oldLen - (x : ℚ) * newLen| ≤ (oldLen : ℚ) / 2
          ∧ 0 ≤ y ∧ y ≤ newLen)
      xs (scaleLensToMarks xs oldLen newLen) := by
  unfold scaleLensToMarks
  rw [List.forall₂_map_right_iff]
  rw [List.forall₂_same]
  intro x hx
  exact scaleLenToMark_bounds x oldLen newLen hold (hxs x hx)

/-- Witness for C1 at a concrete input: two pins at distances 2 and 9 in a
12-character range replaced by 6 characters. -/
theorem C1_pagemark_rescaling_witness :
    (0 < 12 ∧ ∀ x ∈ [2, 9], x ≤ 12)
      ∧ List.Forall₂
          (fun (x : ℕ) (y : ℤ) =>
            |(y : ℚ) * ((12 : ℕ) : ℚ) - (x : ℚ) * ((6 : ℕ) : ℚ)|
                ≤ ((12 : ℕ) : ℚ) / 2
              ∧ 0 ≤ y ∧ y ≤ (6 : ℕ))
          [2, 9] (scaleLensToMarks [2, 9] 12 6) :=
  ⟨⟨by decide, by decide⟩,
    C1_pagemark_rescaling [2, 9] 12 6 (by decide) (by decide)⟩

/-! ## Word-splitting lemmas for the wrapper -/

/-- A good word list: every word is nonempty and whitespace-free. -/
def goodWords (ws : List Str) : Prop :=
  ∀ w ∈ ws, w ≠ [] ∧ ∀ c ∈ w, isWS c = false

theorem wordsAux_cons_nonWS (c : Char) (hc : isWS c = false) (t acc : Str) :
    wordsAux (c :: t) acc = wordsAux t (c :: acc) := by
  simp [wordsAux, hc]

theorem wordsAux_append_word (w : Str) (hw : ∀ c ∈ w, isWS c = false) :
    ∀ t acc, wordsAux (w ++ t) acc = wordsAux t (w.reverse ++ acc) := by
  induction w with
  | nil => intro t acc; simp
  | cons c w' ih =>
    intro t acc
    have hc : isWS c = false := hw c (by simp)
    have hw' : ∀ d ∈ w', isWS d = false := fun d hd => hw d (by simp [hd])
    rw [List.cons_append, wordsAux_cons_nonWS c hc _ acc, ih hw' t (c :: acc)]
    simp

theorem wordsAux_ws_cons (d : Char) (hd : isWS d = true) (t : Str) :
    wordsAux (d :: t) [] = wordsAux t [] := by
  simp [wordsAux, hd]

theorem wordsAux_ws_cons_acc (d : Char) (hd : isWS d = true) (t acc : Str)
    (hacc : acc ≠ []) :
    wordsAux (d :: t) acc = acc.reverse :: wordsAux t [] := by
  cases acc with
  | nil => exact absurd rfl hacc
  | cons a as => simp [wordsAux, hd]

theorem wordsOf_word_append (w : Str) (hw0 : w ≠ [])
    (hw : ∀ c ∈ w, isWS c = false) (d : Char) (hd : isWS d = true) (t : Str) :
    wordsOf (w ++ d :: t) = w :: wordsOf t := by
  unfold wordsOf
  rw [wordsAux_append_word w hw (d :: t) []]
  rw [wordsAux_ws_cons_acc d hd t (w.reverse ++ []) (by simp [hw0])]
  simp

theorem wordsOf_single_word (w : Str) (hw0 : w ≠ [])
    (hw : ∀ c ∈ w, isWS c = false) : wordsOf w = [w] := by
  unfold wordsOf
  have h := wordsAux_append_word w hw [] []
  rw [show w ++ ([] : Str) = w by simp] at h
  rw [h, List.append_nil]
  cases hrev : w.reverse with
  | nil => exact absurd (by simpa using hrev) hw0
  | cons a as =>
    have hred : wordsAux [] (a :: as) = [(a :: as).reverse] := rfl
    rw [hred, ← hrev, List.reverse_reverse]

theorem wordsOf_replicate_space (n : ℕ) (t : Str) :
    wordsOf (List.replicate n ' ' ++ t) = wordsOf t := by
  induction n with
  | zero => simp
  | succ m ih =>
    rw [List.replicate_succ]
    simp only [List.cons_append]
    unfold wordsOf at ih ⊢
    rw [wordsAux_ws_cons ' ' (by decide) _]
    exact ih

theorem wordsOf_joinSp_append (ws : List Str) (hg : goodWords ws)
    (d : Char) (hd : isWS d = true) (t : Str) :
    wordsOf (joinSp ws ++ d :: t) = ws ++ wordsOf t := by
  induction ws with
  | nil =>
    simp only [joinSp, List.nil_append]
    unfold wordsOf
    rw [wordsAux_ws_cons d hd t]
  | cons w tail ih =>
    cases tail with
    | nil =>
      simp only [joinSp]
      obtain ⟨h0, hfree⟩ := hg w (by simp)
      rw [wordsOf_word_append w h0 hfree d hd t]
      simp
    | cons y rest =>
      simp only [joinSp]
      obtain ⟨h0, hfree⟩ := hg w (by simp)
      have hg' : goodWords (y :: rest) := fun v hv => hg v (by simp [hv])
      have assoc : (w ++ ' ' :: joinSp (y :: rest)) ++ d :: t
          = w ++ ' ' :: (joinSp (y :: rest) ++ d :: t) := by simp
      rw [assoc]
      rw [wordsOf_word_append w h0 hfree ' ' (by decide) _]
      rw [ih hg']
      simp

theorem wordsOf_joinSp (ws : List Str) (hg : goodWords ws) :
    wordsOf (joinSp ws) = ws := by
  induction ws with
  | nil => simp [joinSp, wordsOf, wordsAux]
  | cons w tail ih =>
    cases tail with
    | nil =>
      obtain ⟨h0, hfree⟩ := hg w (by simp)
      simpa [joinSp] using wordsOf_single_word w h0 hfree
    | cons y rest =>
      simp only [joinSp]
      obtain ⟨h0, hfree⟩ := hg w (by simp)
      have hg' : goodWords (y :: rest) := fun v hv => hg v (by simp [hv])
      rw [wordsOf_word_append w h0 hfree ' ' (by decide) _]
      rw [ih hg']

theorem wordsAux_good (s : Str) :
    ∀ acc, (∀ c ∈ acc, isWS c = false) → goodWords (wordsAux s acc) := by
  induction s with
  | nil =>
    intro acc hacc
    cases acc with
    | nil => intro w hw; simp [wordsAux] at hw
    | cons a as =>
      intro w hw
      simp [wordsAux] at hw
      subst hw
      refine ⟨by simp, ?_⟩
      intro c hc
      exact hacc c (by simp at hc ⊢; tauto)
  | cons c rest ih =>
    intro acc hacc
    by_cases hc : isWS c = true
    · cases acc with
      | nil =>
        rw [wordsAux_ws_cons c hc rest]
        exact ih [] (by simp)
      | cons a as =>
        rw [wordsAux_ws_cons_acc c hc rest (a :: as) (by simp)]
        intro w hw
        rcases List.mem_cons.mp hw with h | h
        · subst h
          refine ⟨by simp, ?_⟩
          intro d hd
          exact hacc d (by simp at hd ⊢; tauto)
        · exact ih [] (by simp) w h
    · rw [wordsAux_cons_nonWS c (by simpa using hc) rest acc]
      apply ih
      intro d hd
      rcases List.mem_cons.mp hd with h | h
      · subst h; simpa using hc
      · exact hacc d h

theorem wordsOf_good (s : Str) : goodWords (wordsOf s) :=
  wordsAux_good s [] (by simp)

theorem wordsAux_chars_mem (s : Str) :
    ∀ acc w, w ∈ wordsAux s acc → ∀ c ∈ w, c ∈ s ∨ c ∈ acc := by
  induction s with
  | nil =>
    intro acc w hw c hc
    cases acc with
    | nil => simp [wordsAux] at hw
    | cons a as =>
      simp [wordsAux] at hw
      subst hw
      exact Or.inr (by simp at hc ⊢; tauto)
  | cons x rest ih =>
    intro acc w hw c hc
    by_cases hx : isWS x = true
    · cases acc with
      | nil =>
        rw [wordsAux_ws_cons x hx rest] at hw
        rcases ih [] w hw c hc with h | h
        · exact Or.inl (by simp [h])
        · simp at h
      | cons a as =>
        rw [wordsAux_ws_cons_acc x hx rest (a :: as) (by simp)] at hw
        rcases List.mem_cons.mp hw with h | h
        · subst h
          exact Or.inr (by simp at hc ⊢; tauto)
        · rcases ih [] w h c hc with h2 | h2
          · exact Or.inl (by simp [h2])
          · simp at h2
    · rw [wordsAux_cons_nonWS x (by simpa using hx) rest acc] at hw
      rcases ih (x :: acc) w hw c hc with h | h
      · exact Or.inl (by simp [h])
      · rcases List.mem_cons.mp h with h2 | h2
        · exact Or.inl (by simp [h2])
        · exact Or.inr h2

theorem wordsOf_chars_mem (s : Str) (w : Str) (hw : w ∈ wordsOf s) :
    ∀ c ∈ w, c ∈ s := by
  intro c hc
  rcases wordsAux_chars_mem s [] w hw c hc with h | h
  · exact h
  · simp at h

/-! ## Pin-free texts are untouched by pin normalisation -/

/-- A text containing no page-mark pin characters. -/
def noPin (s : Str) : Prop := ∀ c ∈ s, c ≠ PAGEMARK_PIN

instance (s : Str) : Decidable (noPin s) := by
  unfold noPin
  infer_instance

theorem rmSpaceBetweenPins_noPin (s : Str) (h : noPin s) :
    rmSpaceBetweenPins s = s := by
  induction s using rmSpaceBetweenPins.induct with
  | case1 => rfl
  | case2 c => rfl
  | case3 c d => rfl
  | case4 c d e rest hcd ih =>
    simp only [Bool.and_eq_true, decide_eq_true_eq] at hcd
    exact absurd hcd.1.1 (h c (by simp))
  | case5 c d e rest hcd ih =>
    have h' : noPin (d :: e :: rest) := fun x hx => h x (by simp at hx ⊢; tauto)
    rw [rmSpaceBetweenPins, if_neg hcd, ih h']

theorem rmSpAft_noPin (s : Str) (h : noPin s) :
    ∀ b, rmSpAft b false s = s := by
  induction s with
  | nil => intro b; rfl
  | cons c rest ih =>
    intro b
    have hc : c ≠ PAGEMARK_PIN := h c (by simp)
    have hrest : noPin rest := fun x hx => h x (by simp [hx])
    unfold rmSpAft
    rw [if_neg hc]
    by_cases hsp : c = ' '
    · rw [if_pos hsp, if_neg (by simp), ih hrest true, hsp]
    · rw [if_neg hsp, ih hrest false]

theorem rmSpBef_noPin (s : Str) (h : noPin s) :
    rmSpBef .idle s = s ∧ rmSpBef .sp s = ' ' :: s := by
  induction s with
  | nil => exact ⟨rfl, rfl⟩
  | cons c rest ih =>
    have hc : c ≠ PAGEMARK_PIN := h c (by simp)
    have hrest : noPin rest := fun x hx => h x (by simp [hx])
    obtain ⟨ih1, ih2⟩ := ih hrest
    constructor
    · unfold rmSpBef
      by_cases hsp : c = ' '
      · rw [hsp, if_pos rfl]
        exact ih2
      · rw [if_neg hsp, ih1]
    · by_cases hsp : c = ' '
      · rw [hsp]
        show (if ' ' = PAGEMARK_PIN then rmSpBef (BefState.run 1) rest
              else if ' ' = ' ' then ' ' :: rmSpBef BefState.sp rest
              else ' ' :: ' ' :: rmSpBef BefState.idle rest) = ' ' :: ' ' :: rest
        rw [if_neg (by decide), if_pos rfl, ih2]
      · show (if c = PAGEMARK_PIN then rmSpBef (BefState.run 1) rest
              else if c = ' ' then ' ' :: rmSpBef BefState.sp rest
              else ' ' :: c :: rmSpBef BefState.idle rest) = ' ' :: c :: rest
        rw [if_neg hc, if_neg hsp, ih1]

theorem normalizePins_noPin (s : Str) (h : noPin s) : normalizePins s = s := by
  unfold normalizePins
  rw [rmSpaceBetweenPins_noPin s h, rmSpAft_noPin s h true,
    (rmSpBef_noPin s h).1]

/-! ## Properties of the greedy fill -/

theorem greedyAux_flatten (r l : ℕ) :
    ∀ ws ind line,
      ((greedyAux r l ws ind line).map Prod.snd).flatten = line ++ ws := by
  intro ws
  induction ws with
  | nil => intro ind line; simp [greedyAux]
  | cons w tail ih =>
    intro ind line
    unfold greedyAux
    by_cases h0 : line.isEmpty
    · rw [if_pos h0, ih]
      have : line = [] := by simpa [List.isEmpty_iff] using h0
      simp [this]
    · rw [if_neg h0]
      by_cases h1 : lineLen ind (line ++ [w]) ≤ r
      · rw [if_pos h1, ih]
        simp
      · rw [if_neg h1]
        simp only [List.map_cons, List.flatten_cons, ih]
        simp

theorem greedyAux_nonempty (r l : ℕ) :
    ∀ ws ind line, (ws = [] → line ≠ []) →
      ∀ x ∈ greedyAux r l ws ind line, x.2 ≠ [] := by
  intro ws
  induction ws with
  | nil =>
    intro ind line hne x hx
    simp [greedyAux] at hx
    rw [hx]
    exact hne rfl
  | cons w tail ih =>
    intro ind line _ x hx
    unfold greedyAux at hx
    by_cases h0 : line.isEmpty
    · rw [if_pos h0] at hx
      exact ih ind [w] (by simp) x hx
    · rw [if_neg h0] at hx
      by_cases h1 : lineLen ind (line ++ [w]) ≤ r
      · rw [if_pos h1] at hx
        exact ih ind (line ++ [w]) (by simp) x hx
      · rw [if_neg h1] at hx
        rcases List.mem_cons.mp hx with h | h
        · rw [h]
          simpa [List.isEmpty_iff] using h0
        · exact ih l [w] (by simp) x h

theorem greedyAux_bound (r l : ℕ) :
    ∀ ws ind line,
      (line = [] ∨ lineLen ind line ≤ r ∨ ∃ w, line = [w]) →
      (ws = [] → line ≠ []) →
      ∀ x ∈ greedyAux r l ws ind line,
        lineLen x.1 x.2 ≤ r ∨ ∃ w, x.2 = [w] := by
  intro ws
  induction ws with
  | nil =>
    intro ind line hcur hne x hx
    simp [greedyAux] at hx
    rcases hcur with h | h
    · exact absurd h (hne rfl)
    · rw [hx]
      exact h
  | cons w tail ih =>
    intro ind line hcur _ x hx
    unfold greedyAux at hx
    by_cases h0 : line.isEmpty
    · rw [if_pos h0] at hx
      exact ih ind [w] (Or.inr (Or.inr ⟨w, rfl⟩)) (by simp) x hx
    · rw [if_neg h0] at hx
      by_cases h1 : lineLen ind (line ++ [w]) ≤ r
      · rw [if_pos h1] at hx
        exact ih ind (line ++ [w]) (Or.inr (Or.inl h1)) (by simp) x hx
      · rw [if_neg h1] at hx
        rcases List.mem_cons.mp hx with h | h
        · have hne2 : line ≠ [] := by simpa [List.isEmpty_iff] using h0
          rcases hcur with hc | hc | hc
          · exact absurd hc hne2
          · rw [h]; exact Or.inl hc
          · rw [h]; exact Or.inr hc
        · exact ih l [w] (Or.inr (Or.inr ⟨w, rfl⟩)) (by simp) x h

theorem joinSp_length (ws : List Str) (h : ws ≠ []) :
    (joinSp ws).length = (ws.map List.length).sum + (ws.length - 1) := by
  induction ws with
  | nil => exact absurd rfl h
  | cons w tail ih =>
    cases tail with
    | nil => simp [joinSp]
    | cons y rest =>
      have ihne := ih (by simp)
      simp only [joinSp, List.length_append, List.length_cons, ihne]
      simp
      omega

theorem renderLine_length (x : ℕ × List Str) (h : x.2 ≠ []) :
    (renderLine x).length = lineLen x.1 x.2 := by
  unfold renderLine lineLen
  rw [List.length_append, List.length_replicate, joinSp_length x.2 h]
  omega

theorem wordsOf_renderLines (ls : List (ℕ × List Str))
    (hg : ∀ x ∈ ls, x.2 ≠ [] ∧ goodWords x.2) :
    wordsOf (renderLines ls) = (ls.map Prod.snd).flatten := by
  induction ls with
  | nil => simp [renderLines, joinNL, wordsOf, wordsAux]
  | cons x tail ih =>
    cases tail with
    | nil =>
      obtain ⟨hne, hgood⟩ := hg x (by simp)
      simp only [renderLines, List.map_cons, List.map_nil, joinNL,
        List.flatten_cons, List.flatten_nil, List.append_nil]
      unfold renderLine
      rw [wordsOf_replicate_space, wordsOf_joinSp x.2 hgood]
    | cons y rest =>
      obtain ⟨hne, hgood⟩ := hg x (by simp)
      have ih2 := ih (fun v hv => hg v (by simp at hv ⊢; tauto))
      simp only [renderLines, List.map_cons, joinNL, List.flatten_cons]
      have hassoc :
          (renderLine x ++ '\n' :: joinNL (renderLine y :: List.map renderLine rest))
            = List.replicate x.1 ' '
              ++ (joinSp x.2
                ++ '\n' :: joinNL (renderLine y :: List.map renderLine rest)) := by
        unfold renderLine
        simp
      rw [hassoc, wordsOf_replicate_space,
        wordsOf_joinSp_append x.2 hgood '\n' (by decide) _]
      simp only [renderLines, List.map_cons] at ih2
      rw [ih2]
      simp

theorem greedyWrap_flatten (p : WrapParams) (ws : List Str) :
    ((greedyWrap p ws).map Prod.snd).flatten = ws := by
  cases ws with
  | nil => simp [greedyWrap]
  | cons w tail =>
    unfold greedyWrap
    rw [greedyAux_flatten]
    simp

theorem greedyWrap_mem_nonempty (p : WrapParams) (ws : List Str)
    (x : ℕ × List Str) (hx : x ∈ greedyWrap p ws) : x.2 ≠ [] := by
  cases ws with
  | nil => simp [greedyWrap] at hx
  | cons w tail =>
    exact greedyAux_nonempty p.right p.left (w :: tail) p.first []
      (by simp) x hx

theorem greedyWrap_word_mem (p : WrapParams) (ws : List Str)
    (x : ℕ × List Str) (hx : x ∈ greedyWrap p ws)
    (w : Str) (hw : w ∈ x.2) : w ∈ ws := by
  rw [← greedyWrap_flatten p ws]
  exact List.mem_flatten.mpr ⟨x.2, List.mem_map.mpr ⟨x, hx, rfl⟩, hw⟩

/-- C2: every line produced by the paragraph wrapper has rendered length at
most `right`, except a line holding a single unbreakable word that does not
fit in the available width (`right < indent + |w|`); such a word is placed
alone on its line.  Moreover the concatenation of the words of all output
lines is exactly the input word sequence, so no word is ever split across
lines. -/
theorem C2_wrap_width_bound (p : WrapParams) (s : Str) :
    (∀ x ∈ wrapParagraphLines p s,
        (renderLine x).length ≤ p.right
          ∨ ∃ w ∈ wordsOf (normalizePins (collapseStrip s)),
              x.2 = [w] ∧ p.right < x.1 + w.length)
      ∧ ((wrapParagraphLines p s).map Prod.snd).flatten
          = wordsOf (normalizePins (collapseStrip s)) := by
  unfold wrapParagraphLines
  set W := wordsOf (normalizePins (collapseStrip s)) with hW
  refine ⟨?_, greedyWrap_flatten p W⟩
  intro x hx
  have hne : x.2 ≠ [] := greedyWrap_mem_nonempty p W x hx
  have hbound : lineLen x.1 x.2 ≤ p.right ∨ ∃ w, x.2 = [w] := by
    cases hWc : W with
    | nil => rw [hWc] at hx; simp [greedyWrap] at hx
    | cons w tail =>
      rw [hWc] at hx
      exact greedyAux_bound p.right p.left (w :: tail) p.first []
        (Or.inl rfl) (by simp) x hx
  rw [renderLine_length x hne]
  rcases hbound with h | ⟨w, hw⟩
  · exact Or.inl h
  · by_cases hr : lineLen x.1 x.2 ≤ p.right
    · exact Or.inl hr
    · right
      refine ⟨w, greedyWrap_word_mem p W x hx w (by simp [hw]), hw, ?_⟩
      rw [hw] at hr
      simp [lineLen] at hr
      omega

/-- Witness-free check of C2 is not required (no propositional hypotheses),
but this instance shows a long word really can exceed the width: wrapping
`"hello supercalifragilistic yes"` at width 10. -/
theorem C2_wrap_width_bound_example :
    wrapParagraphLines ⟨2, 4, 10⟩ ("hello supercalifragilistic yes").data
      = [(4, [("hello").data]),
         (2, [("supercalifragilistic").data]),
         (2, [("yes").data])] := by
  decide

/-! ## Idempotence of the wrapper on pin-free text -/

theorem mem_joinSp (ws : List Str) (c : Char) (hc : c ∈ joinSp ws) :
    c = ' ' ∨ ∃ w ∈ ws, c ∈ w := by
  induction ws with
  | nil => simp [joinSp] at hc
  | cons w tail ih =>
    cases tail with
    | nil =>
      right
      exact ⟨w, by simp, by simpa [joinSp] using hc⟩
    | cons y rest =>
      simp only [joinSp, List.mem_append, List.mem_cons] at hc
      rcases hc with h | h | h
      · exact Or.inr ⟨w, by simp, h⟩
      · exact Or.inl h
      · rcases ih h with h2 | ⟨v, hv, hcv⟩
        · exact Or.inl h2
        · exact Or.inr ⟨v, by simp at hv ⊢; tauto, hcv⟩

theorem mem_joinNL (ls : List Str) (c : Char) (hc : c ∈ joinNL ls) :
    c = '\n' ∨ ∃ l ∈ ls, c ∈ l := by
  induction ls with
  | nil => simp [joinNL] at hc
  | cons l tail ih =>
    cases tail with
    | nil =>
      right
      exact ⟨l, by simp, by simpa [joinNL] using hc⟩
    | cons y rest =>
      simp only [joinNL, List.mem_append, List.mem_cons] at hc
      rcases hc with h | h | h
      · exact Or.inr ⟨l, by simp, h⟩
      · exact Or.inl h
      · rcases ih h with h2 | ⟨v, hv, hcv⟩
        · exact Or.inl h2
        · exact Or.inr ⟨v, by simp at hv ⊢; tauto, hcv⟩

theorem noPin_collapseStrip (s : Str) (h : noPin s) :
    noPin (collapseStrip s) := by
  intro c hc
  rcases mem_joinSp (wordsOf s) c hc with h2 | ⟨w, hw, hcw⟩
  · rw [h2]; decide
  · exact h c (wordsOf_chars_mem s w hw c hcw)

theorem wordsOf_normalized (s : Str) (h : noPin s) :
    wordsOf (normalizePins (collapseStrip s)) = wordsOf s := by
  rw [normalizePins_noPin _ (noPin_collapseStrip s h)]
  exact wordsOf_joinSp (wordsOf s) (wordsOf_good s)

theorem wrapText_noPin_eq (p : WrapParams) (s : Str) (h : noPin s) :
    wrapText p s = renderLines (greedyWrap p (wordsOf s)) := by
  unfold wrapText wrapParagraphLines
  rw [wordsOf_normalized s h]

theorem noPin_wrapText (p : WrapParams) (s : Str) (h : noPin s) :
    noPin (wrapText p s) := by
  rw [wrapText_noPin_eq p s h]
  intro c hc
  unfold renderLines at hc
  rcases mem_joinNL _ c hc with h2 | ⟨l, hl, hcl⟩
  · rw [h2]; decide
  · obtain ⟨x, hx, hlx⟩ := List.mem_map.mp hl
    rw [← hlx] at hcl
    unfold renderLine at hcl
    rcases List.mem_append.mp hcl with h3 | h3
    · have := List.eq_of_mem_replicate h3
      rw [this]; decide
    · rcases mem_joinSp x.2 c h3 with h4 | ⟨w, hw, hcw⟩
      · rw [h4]; decide
      · have hwW : w ∈ wordsOf s := greedyWrap_word_mem p (wordsOf s) x hx w hw
        exact h c (wordsOf_chars_mem s w hwW c hcw)

theorem wordsOf_wrapText (p : WrapParams) (s : Str) (h : noPin s) :
    wordsOf (wrapText p s) = wordsOf s := by
  rw [wrapText_noPin_eq p s h]
  have hlines : ∀ x ∈ greedyWrap p (wordsOf s), x.2 ≠ [] ∧ goodWords x.2 := by
    intro x hx
    refine ⟨greedyWrap_mem_nonempty p (wordsOf s) x hx, ?_⟩
    intro w hw
    exact wordsOf_good s w (greedyWrap_word_mem p (wordsOf s) x hx w hw)
  rw [wordsOf_renderLines _ hlines, greedyWrap_flatten]

/-- C9: on pin-free text the paragraph wrapper is idempotent — wrapping the
already-wrapped output again with the same `WrapParams` returns the
identical text. -/
theorem C9_wrap_idempotent (p : WrapParams) (s : Str) (h : noPin s) :
    wrapText p (wrapText p s) = wrapText p s := by
  have h2 : noPin (wrapText p s) := noPin_wrapText p s h
  rw [wrapText_noPin_eq p (wrapText p s) h2, wordsOf_wrapText p s h,
    wrapText_noPin_eq p s h]

/-- Witness for C9 at a concrete input. -/
theorem C9_wrap_idempotent_witness :
    noPin ("The  quick brown   fox jumps over the lazy dog").data
      ∧ wrapText ⟨4, 6, 16⟩
          (wrapText ⟨4, 6, 16⟩
            ("The  quick brown   fox jumps over the lazy dog").data)
        = wrapText ⟨4, 6, 16⟩
            ("The  quick brown   fox jumps over the lazy dog").data :=
  ⟨by decide,
    C9_wrap_idempotent ⟨4, 6, 16⟩
      ("The  quick brown   fox jumps over the lazy dog").data (by decide)⟩

/-! ## The block-structure wrap driver (`rewrap_section`, `maintext.py`)

The driver is modelled as a state machine over the list of lines of the
section being rewrapped.  The in-place document edits (paragraph
replacement, block re-indentation, centering, index wrapping) do not affect
which lines the driver subsequently examines — positions are pinned by the
`WRAP_NEXT_LINE_MARK` / `WRAP_END_MARK` marks — so the model records them
as events and tracks only the control state (block-quote params stack,
depth, pending paragraph).  Error events carry the section-relative index
of the offending line, corresponding to the approximate document line
number the source passes to `logger.error`. -/

/-- `str.lower()` (ASCII). -/
def pyLower (s : Str) : Str := s.map Char.toLower

/-- `str.rstrip(" \n")`. -/
def rstripSpaceNL (s : Str) : Str :=
  (s.reverse.dropWhile (fun c => c = ' ' || c = '\n')).reverse

/-- `str.replace(PAGEMARK_PIN, "")`. -/
def removePins (s : Str) : Str := s.filter (fun c => c ≠ PAGEMARK_PIN)

/-- `line.lower().rstrip(" \n").replace(PAGEMARK_PIN, "")` from
`rewrap_section`. -/
def trimmedOf (line : Str) : Str := removePins (rstripSpaceNL (pyLower line))

/-- `re.search(r"\S", line)` is `None`, i.e. the line is blank. -/
def isBlankLine (line : Str) : Bool := line.all isWS

/-- Parse one or more decimal digits (maximal munch), returning the value
and the remainder. -/
def parseDigits (s : Str) : Option (ℕ × Str) :=
  let digs := s.takeWhile Char.isDigit
  let rest := s.dropWhile Char.isDigit
  if digs.isEmpty then none
  else some (digs.foldl (fun n c => 10 * n + (c.toNat - 48)) 0, rest)

/-- Parse the optional-group suffix `(\[\d+)?(\.\d+)?(,\d+)?]?` of the
block-markup regexes of `rewrap_section`, as a full match of `s` (the part
after the token).  Returns the three optional numbers. -/
def parseMargins (s : Str) : Option (Option ℕ × Option ℕ × Option ℕ) :=
  let step := fun (intro : Char) (s : Str) =>
    match s with
    | c :: rest =>
      if c = intro then
        match parseDigits rest with
        | some (n, rest2) => some (some n, rest2)
        | none => none
      else some (none, c :: rest)
    | [] => some ((none : Option ℕ), ([] : Str))
  match step '[' s with
  | none => none
  | some (m1, s1) =>
    match step '.' s1 with
    | none => none
    | some (m2, s2) =>
      match step ',' s2 with
      | none => none
      | some (m3, s3) =>
        match s3 with
        | [] => some (m1, m2, m3)
        | [c] => if c = ']' then some (m1, m2, m3) else none
        | _ => none

/-- `wrap_interpret_margins` from `maintext.py`: interpret the up to three
numeric overrides with their defaults (when only the left value is given,
the first-line margin follows it). -/
def wrap_interpret_margins (mleft mfirst mright : Option ℕ)
    (dleft dfirst dright : ℕ) : ℕ × ℕ × ℕ :=
  let newLeft := match mleft with
    | none => dleft
    | some v => v
  let newFirst := match mfirst with
    | none => match mleft with
      | none => dfirst
      | some _ => newLeft
    | some v => v
  let newRight := match mright with
    | none => dright
    | some v => v
  (newLeft, newFirst, newRight)

/-- The configuration values read by `rewrap_section` from the preferences
store (`guiguts.preferences` is not part of this snapshot; the values are
parameters of the model). -/
structure RewrapPrefs where
  defaultLeft : ℕ
  defaultRight : ℕ
  blockIndent : ℕ
  poetryIndent : ℕ
  bqIndent : ℕ
  bqRight : ℕ
  indexWrapMargin : ℕ
  indexMainMargin : ℕ
  indexRightMargin : ℕ
deriving Repr, DecidableEq

/-- The `WrapParams` pushed by `rewrap_section` for a block-quote open
token `/#…` (lines 2049–2068 of `maintext.py`): margins interpreted with
defaults `left = first = enclosing.left + bq_indent` and
`right = enclosing.right` when the current depth is positive, else the
configured block-quote right margin.  The stack is held head-innermost
(head = `block_params_list[-1]`). -/
def rewrap_bq_open_params (stack : List WrapParams) (bqDepth : ℕ)
    (prefs : RewrapPrefs) (m1 m2 m3 : Option ℕ) : WrapParams :=
  let encl := stack.headD ⟨prefs.defaultLeft, prefs.defaultLeft, prefs.defaultRight⟩
  let r := wrap_interpret_margins m1 m2 m3
    (encl.left + prefs.bqIndent) (encl.left + prefs.bqIndent)
    (if bqDepth > 0 then encl.right else prefs.bqRight)
  ⟨r.1, r.2.1, r.2.2⟩

/-- Classification of a non-blank line by `rewrap_section` (in source
order of the regex checks applied to the trimmed line). -/
inductive RewrapTok where
  | bqOpen (m1 m2 m3 : Option ℕ)
  | bqClose
  | blockOpen (t : Char) (m1 m2 m3 : Option ℕ)
  | strayClose (t : Char)
  | text
deriving Repr, DecidableEq

/-- The block-type letters of the open regex `/([\$xf\*plrci])…`. -/
def openBlockChars : List Char := ['$', 'x', 'f', '*', 'p', 'l', 'r', 'c', 'i']

/-- The letters of the stray-close regex `([\$\*xfcrpl]/)` — note this set
lacks `i`, unlike the open set. -/
def strayCloseChars : List Char := ['$', '*', 'x', 'f', 'c', 'r', 'p', 'l']

/-- Classify a trimmed non-blank line, in source order. -/
def classifyRewrapLine (trimmed : Str) : RewrapTok :=
  match trimmed with
  | '/' :: '#' :: rest =>
    match parseMargins rest with
    | some (m1, m2, m3) => .bqOpen m1 m2 m3
    | none => .text
  | ['#', '/'] => .bqClose
  | '/' :: t :: rest =>
    if t ∈ openBlockChars then
      match parseMargins rest with
      | some (m1, m2, m3) => .blockOpen t m1 m2 m3
      | none => .text
    else .text
  | [t, '/'] => if t ∈ strayCloseChars then .strayClose t else .text
  | _ => .text

/-- `^{type}/\s*$` (nocase) — the close-markup line searched for by
`rewrap_section`. -/
def isCloseLine (t : Char) (l : Str) : Bool :=
  match pyLower l with
  | c :: '/' :: rest => c = t && rest.all isWS
  | _ => false

/-- Events recorded by the driver model, in the order the corresponding
source actions happen. -/
inductive REvent where
  | wrapPara
  | blockDone (t : Char)
  | tidy
  | err (line : ℕ)
deriving Repr, DecidableEq

/-- Result of a modelled `rewrap_section` run: events in order, plus the
section lines that were never examined (empty iff the whole section was
processed). -/
structure RewrapResult where
  events : List REvent
  unprocessed : List Str
deriving Repr, DecidableEq

/-- One run of the `rewrap_section` loop, structurally recursive on a fuel
bound (`fuel` ≥ number of remaining lines; each step consumes at least one
line).  `para` records whether a paragraph is being accumulated. -/
def rewrapGo (prefs : RewrapPrefs) : ℕ → List Str → ℕ →
    List WrapParams → ℕ → Bool → RewrapResult
  | 0, rem, _, _, _, para =>
    { events := (if para then [REvent.wrapPara] else []) ++ [REvent.tidy],
      unprocessed := rem }
  | _ + 1, [], _, _, _, para =>
    { events := (if para then [REvent.wrapPara] else []) ++ [REvent.tidy],
      unprocessed := [] }
  | fuel + 1, line :: rest, n, stack, bqDepth, para =>
    if isBlankLine line then
      let r := rewrapGo prefs fuel rest (n + 1) stack bqDepth false
      { r with events := (if para then [REvent.wrapPara] else []) ++ r.events }
    else
      match classifyRewrapLine (trimmedOf line) with
      | .bqOpen m1 m2 m3 =>
        let newParams := rewrap_bq_open_params stack bqDepth prefs m1 m2 m3
        let r := rewrapGo prefs fuel rest (n + 1) (newParams :: stack)
          (bqDepth + 1) false
        { r with events := (if para then [REvent.wrapPara] else []) ++ r.events }
      | .bqClose =>
        match stack with
        | [] =>
          { events := (if para then [REvent.wrapPara] else [])
              ++ [REvent.tidy, REvent.err n],
            unprocessed := rest }
        | [_] =>
          { events := (if para then [REvent.wrapPara] else [])
              ++ [REvent.tidy, REvent.err n],
            unprocessed := rest }
        | _ :: p :: ps =>
          let r := rewrapGo prefs fuel rest (n + 1) (p :: ps) (bqDepth - 1) false
          { r with events := (if para then [REvent.wrapPara] else []) ++ r.events }
      | .blockOpen t _ _ _ =>
        match rest.findIdx? (isCloseLine t) with
        | none =>
          { events := (if para then [REvent.wrapPara] else [])
              ++ [REvent.tidy, REvent.err n],
            unprocessed := rest }
        | some j =>
          let r := rewrapGo prefs fuel (rest.drop (j + 1))
            (n + j + 2) stack bqDepth false
          { r with events := (if para then [REvent.wrapPara] else [])
              ++ REvent.blockDone t :: r.events }
      | .strayClose _ =>
        { events := [REvent.tidy, REvent.err n], unprocessed := rest }
      | .text =>
        rewrapGo prefs fuel rest (n + 1) stack bqDepth true

/-- Modelled `rewrap_section` over the lines of a section: the params stack
starts with the depth-0 entry built from the default margins. -/
def rewrap_section (prefs : RewrapPrefs) (lines : List Str) : RewrapResult :=
  rewrapGo prefs lines.length lines 0
    [⟨prefs.defaultLeft, prefs.defaultLeft, prefs.defaultRight⟩] 0 false

/-- C4: a block-quote open token `/#` with no bracketed overrides pushes
`WrapParams` with `left = first = enclosing.left + bq_indent`, and
`right = bq_right` at depth 0 but the enclosing right margin at any deeper
nesting; a bare `/#` line is classified with no overrides. -/
theorem C4_bq_open_params (prefs : RewrapPrefs) (encl : WrapParams)
    (stack' : List WrapParams) (d : ℕ) :
    rewrap_bq_open_params (encl :: stack') d prefs none none none
        = ⟨encl.left + prefs.bqIndent, encl.left + prefs.bqIndent,
            if d = 0 then prefs.bqRight else encl.right⟩
      ∧ classifyRewrapLine (("/#").data) = .bqOpen none none none := by
  constructor
  · unfold rewrap_bq_open_params wrap_interpret_margins
    cases d <;> simp
  · decide

/-- C3 (code-bug evidence): a stray `c/` close token aborts the rewrap —
the tidy callback runs, an error naming the offending line is reported, and
the following lines are left unprocessed — but a stray `i/` close token is
*not* caught (the stray-close regex `([\$\*xfcrpl]/)` lacks `i`, though `/i`
is a supported open token): it is absorbed into a paragraph and the section
is rewrapped without any error. -/
theorem C3_stray_close_divergence :
    rewrap_section ⟨0, 72, 2, 4, 4, 72, 2, 0, 72⟩
        [("c/").data, ("after").data]
        = { events := [REvent.tidy, REvent.err 0],
            unprocessed := [("after").data] }
      ∧ rewrap_section ⟨0, 72, 2, 4, 4, 72, 2, 0, 72⟩
          [("i/").data, ("after").data]
        = { events := [REvent.wrapPara, REvent.tidy], unprocessed := [] } := by
  constructor
  · decide
  · decide

/-! ## HTML entity conversion (`html_convert_entities`, `html_convert.py`) -/

/-- Modelled from the spec: `maintext().replace_all(old, new)` (the
`replace_all` helper of `maintext.py` is absent from this snapshot) —
replace every occurrence of `pat`, scanning left to right and resuming
after each replacement.  Structural on a fuel bound (≥ text length). -/
def replaceAllGo (pat repl : Str) : ℕ → Str → Str
  | 0, s => s
  | _ + 1, [] => []
  | fuel + 1, c :: rest =>
    if pat.isPrefixOf (c :: rest) then
      repl ++ replaceAllGo pat repl fuel ((c :: rest).drop pat.length)
    else c :: replaceAllGo pat repl fuel rest

/-- Global replacement of a nonempty pattern. -/
def replaceAll (pat repl s : Str) : Str :=
  if pat.isEmpty then s else replaceAllGo pat repl s.length s

/-- The recognised DP inline tags of the entity pass
(`</?(i|b|f|g|u|sc|tb)>`). -/
def dpTags : List Str :=
  [("<i>").data, ("<b>").data, ("<f>").data, ("<g>").data, ("<u>").data,
   ("<sc>").data, ("<tb>").data,
   ("</i>").data, ("</b>").data, ("</f>").data, ("</g>").data,
   ("</u>").data, ("</sc>").data, ("</tb>").data]

/-- The `<`/`>` loop of `html_convert_entities`: each `<` is replaced by
`&lt;` unless it begins a recognised DP tag (which is skipped whole), and
each `>` is replaced by `&gt;` (the tag regex starts with `<`, so a bare
`>` can never be part of a match).  Fuel-structural scanner. -/
def convertAngleGo : ℕ → Str → Str
  | 0, s => s
  | _ + 1, [] => []
  | fuel + 1, c :: rest =>
    if c = '<' then
      match dpTags.find? (fun t => t.isPrefixOf (c :: rest)) with
      | some t => t ++ convertAngleGo fuel ((c :: rest).drop t.length)
      | none => ("&lt;").data ++ convertAngleGo fuel rest
    else if c = '>' then ("&gt;").data ++ convertAngleGo fuel rest
    else c :: convertAngleGo fuel rest

/-- `html_convert_entities` from `html_convert.py`: replace `&`, `\xa0`
and `--` globally, then convert angle brackets that are not part of DP
tags. -/
def html_convert_entities (t : Str) : Str :=
  convertAngleGo
    (replaceAll (("--").data) (("—").data)
      (replaceAll [Char.ofNat 160] (("&nbsp;").data)
        (replaceAll (("&").data) (("&amp;").data) t))).length
    (replaceAll (("--").data) (("—").data)
      (replaceAll [Char.ofNat 160] (("&nbsp;").data)
        (replaceAll (("&").data) (("&amp;").data) t)))

/-- The decomposition grammar for the entity pass (C5): a text is a
sequence of items — a plain character, an ampersand, a non-breaking
space, a double hyphen, a bare `<` or `>`, or a DP inline tag. -/
inductive EntItem where
  | ch : Char → EntItem
  | amp : EntItem
  | nb : EntItem
  | dd : EntItem
  | lt : EntItem
  | gt : EntItem
  | tag : Str → EntItem
deriving Repr, DecidableEq

/-- The source text of one item. -/
def renderEnt : EntItem → Str
  | .ch c => [c]
  | .amp => [('&' : Char)]
  | .nb => [Char.ofNat 160]
  | .dd => ("--").data
  | .lt => [('<' : Char)]
  | .gt => [('>' : Char)]
  | .tag tg => tg

/-- The source text of an item sequence. -/
def renderEnts (items : List EntItem) : Str :=
  (items.map renderEnt).flatten

/-- Item text after the ampersand pass. -/
def entT1 : EntItem → Str
  | .ch c => [c]
  | .amp => ("&amp;").data
  | .nb => [Char.ofNat 160]
  | .dd => ("--").data
  | .lt => [('<' : Char)]
  | .gt => [('>' : Char)]
  | .tag tg => tg

/-- Item text after the ampersand and non-breaking-space passes. -/
def entT2 : EntItem → Str
  | .ch c => [c]
  | .amp => ("&amp;").data
  | .nb => ("&nbsp;").data
  | .dd => ("--").data
  | .lt => [('<' : Char)]
  | .gt => [('>' : Char)]
  | .tag tg => tg

/-- Item text after the three character-replacement passes, before the
angle-bracket pass. -/
def entT3 : EntItem → Str
  | .ch c => [c]
  | .amp => ("&amp;").data
  | .nb => ("&nbsp;").data
  | .dd => ("—").data
  | .lt => [('<' : Char)]
  | .gt => [('>' : Char)]
  | .tag tg => tg

/-- The full entity translation of one item: ampersand to `&amp;`,
non-breaking space to `&nbsp;`, double hyphen to an em dash, bare angle
brackets to `&lt;`/`&gt;`, and DP tags and plain characters unchanged. -/
def entTrans : EntItem → Str
  | .ch c => [c]
  | .amp => ("&amp;").data
  | .nb => ("&nbsp;").data
  | .dd => ("—").data
  | .lt => ("&lt;").data
  | .gt => ("&gt;").data
  | .tag tg => tg

/-- A well-formed decomposition: every plain character is none of the
special characters (so each special occurrence is its own item), every
tag item is a recognised DP tag, and a bare `<` does not begin a
recognised DP tag in the following text (the source makes this check
after the three character replacements, which is the text `entT3`
produces). -/
def entWF : List EntItem → Bool
  | [] => true
  | .ch c :: rest =>
    !(c = '&' || c = Char.ofNat 160 || c = '-' || c = '<' || c = '>')
      && entWF rest
  | .tag tg :: rest => decide (tg ∈ dpTags) && entWF rest
  | .lt :: rest =>
    !(dpTags.any (fun tg =>
        tg.isPrefixOf ('<' :: (rest.map entT3).flatten))) && entWF rest
  | _ :: rest => entWF rest

theorem entWF_cons (i : EntItem) (rest : List EntItem)
    (h : entWF (i :: rest) = true) : entWF rest = true := by
  cases i <;> simp only [entWF, Bool.and_eq_true] at h <;>
    first
      | exact h
      | exact h.2

theorem entWF_ch (c : Char) (rest : List EntItem)
    (h : entWF (EntItem.ch c :: rest) = true) :
    ¬ c = '&' ∧ ¬ c = Char.ofNat 160 ∧ ¬ c = '-' ∧ ¬ c = '<'
      ∧ ¬ c = '>' := by
  simp only [entWF, Bool.and_eq_true, Bool.not_eq_true'] at h
  have h1 := h.1
  simp only [Bool.or_eq_false_iff, decide_eq_false_iff_not] at h1
  exact ⟨h1.1.1.1.1, h1.1.1.1.2, h1.1.1.2, h1.1.2, h1.2⟩

theorem entWF_tag (tg : Str) (rest : List EntItem)
    (h : entWF (EntItem.tag tg :: rest) = true) : tg ∈ dpTags := by
  simp only [entWF, Bool.and_eq_true] at h
  simpa using h.1

theorem entWF_lt (rest : List EntItem)
    (h : entWF (EntItem.lt :: rest) = true) :
    dpTags.any (fun tg =>
      tg.isPrefixOf ('<' :: (rest.map entT3).flatten)) = false := by
  simp only [entWF, Bool.and_eq_true, Bool.not_eq_true'] at h
  exact h.1

theorem replaceAllGo_cons (pat repl : Str) (fuel : ℕ) (c : Char)
    (rest : Str) :
    replaceAllGo pat repl (fuel + 1) (c :: rest) =
      if pat.isPrefixOf (c :: rest) then
        repl ++ replaceAllGo pat repl fuel ((c :: rest).drop pat.length)
      else c :: replaceAllGo pat repl fuel rest := rfl

theorem replaceAllGo_single (a : Char) (repl : Str) :
    ∀ (s : Str) (fuel : ℕ), s.length ≤ fuel →
      replaceAllGo [a] repl fuel s
        = s.flatMap (fun c => if c = a then repl else [c]) := by
  intro s
  induction s with
  | nil => intro fuel _; cases fuel <;> rfl
  | cons c rest ih =>
    intro fuel hlen
    cases fuel with
    | zero => simp at hlen
    | succ fuel2 =>
      rw [replaceAllGo_cons]
      have hlen2 : rest.length ≤ fuel2 := by
        simp only [List.length_cons] at hlen
        omega
      by_cases hc : c = a
      · subst hc
        rw [if_pos (by simp [List.isPrefixOf])]
        simp [ih fuel2 hlen2]
      · have hpre : ¬ ([a].isPrefixOf (c :: rest) = true) := by
          simp [List.isPrefixOf]
          intro hEq
          exact absurd hEq.symm hc
        rw [if_neg hpre]
        simp [ih fuel2 hlen2, hc]

theorem replaceAll_single (a : Char) (repl s : Str) :
    replaceAll [a] repl s
      = s.flatMap (fun c => if c = a then repl else [c]) := by
  unfold replaceAll
  rw [if_neg (by simp)]
  exact replaceAllGo_single a repl s s.length (le_refl _)

theorem replaceAllGo_skip (p : Char) (pat repl : Str) :
    ∀ (seg rest : Str) (fuel : ℕ), (seg ++ rest).length ≤ fuel →
      (∀ c ∈ seg, ¬ c = p) →
      replaceAllGo (p :: pat) repl fuel (seg ++ rest)
        = seg ++ replaceAllGo (p :: pat) repl (fuel - seg.length) rest := by
  intro seg
  induction seg with
  | nil => intro rest fuel _ _; simp
  | cons c seg2 ih =>
    intro rest fuel hlen hseg
    have hc : ¬ c = p := hseg c (by simp)
    cases fuel with
    | zero => simp at hlen
    | succ fuel2 =>
      have hpre : ¬ ((p :: pat).isPrefixOf (c :: (seg2 ++ rest)) = true) := by
        simp [List.isPrefixOf]
        intro hEq
        exact absurd hEq.symm hc
      rw [List.cons_append, replaceAllGo_cons, if_neg hpre]
      have hlen2 : (seg2 ++ rest).length ≤ fuel2 := by
        simp only [List.cons_append, List.length_cons] at hlen
        omega
      rw [ih rest fuel2 hlen2 (fun d hd => hseg d (by simp [hd]))]
      simp only [List.cons_append, List.length_cons, Nat.succ_sub_succ]

theorem entStage1 : ∀ (items : List EntItem), entWF items = true →
    (renderEnts items).flatMap
        (fun c => if c = '&' then ("&amp;").data else [c])
      = (items.map entT1).flatten := by
  intro items
  induction items with
  | nil => intro _; rfl
  | cons i rest ih =>
    intro h
    have hrest := entWF_cons i rest h
    have hmain : (renderEnt i).flatMap
        (fun c => if c = '&' then ("&amp;").data else [c]) = entT1 i := by
      cases i with
      | ch c =>
        obtain ⟨h1, -, -, -, -⟩ := entWF_ch c rest h
        simp [renderEnt, entT1, h1]
      | amp => decide
      | nb => decide
      | dd => decide
      | lt => decide
      | gt => decide
      | tag tg =>
        exact (by decide : ∀ t ∈ dpTags, t.flatMap
            (fun c => if c = '&' then ("&amp;").data else [c]) = t)
          tg (entWF_tag tg rest h)
    simp only [renderEnts, List.map_cons, List.flatten_cons,
      List.flatMap_append, hmain]
    rw [show (List.map renderEnt rest).flatten.flatMap
        (fun c => if c = '&' then ("&amp;").data else [c])
      = (rest.map entT1).flatten from ih hrest]

theorem entStage2 : ∀ (items : List EntItem), entWF items = true →
    ((items.map entT1).flatten).flatMap
        (fun c => if c = Char.ofNat 160 then ("&nbsp;").data else [c])
      = (items.map entT2).flatten := by
  intro items
  induction items with
  | nil => intro _; rfl
  | cons i rest ih =>
    intro h
    have hrest := entWF_cons i rest h
    have hmain : (entT1 i).flatMap
        (fun c => if c = Char.ofNat 160 then ("&nbsp;").data else [c])
      = entT2 i := by
      cases i with
      | ch c =>
        obtain ⟨-, h2, -, -, -⟩ := entWF_ch c rest h
        simp [entT1, entT2, h2]
      | amp => decide
      | nb => decide
      | dd => decide
      | lt => decide
      | gt => decide
      | tag tg =>
        exact (by decide : ∀ t ∈ dpTags, t.flatMap
            (fun c => if c = Char.ofNat 160 then ("&nbsp;").data else [c])
          = t) tg (entWF_tag tg rest h)
    simp only [List.map_cons, List.flatten_cons, List.flatMap_append, hmain]
    rw [show (List.map entT1 rest).flatten.flatMap
        (fun c => if c = Char.ofNat 160 then ("&nbsp;").data else [c])
      = (rest.map entT2).flatten from ih hrest]

theorem replaceAllGo_dd_items : ∀ (items : List EntItem) (fuel : ℕ),
    entWF items = true → ((items.map entT2).flatten).length ≤ fuel →
    replaceAllGo (("--").data) (("—").data) fuel
        ((items.map entT2).flatten)
      = (items.map entT3).flatten := by
  intro items
  induction items with
  | nil => intro fuel _ _; cases fuel <;> rfl
  | cons i rest ih =>
    intro fuel h hlen
    have hrest := entWF_cons i rest h
    simp only [List.map_cons, List.flatten_cons] at hlen ⊢
    have hstep : ∀ (hsegnd : ∀ c ∈ entT2 i, ¬ c = '-'),
        replaceAllGo (("--").data) (("—").data) fuel
            (entT2 i ++ (rest.map entT2).flatten)
          = entT2 i ++ (rest.map entT3).flatten := by
      intro hsegnd
      rw [show (("--").data : Str) = ('-' : Char) :: [('-' : Char)]
        from rfl]
      rw [replaceAllGo_skip '-' [('-' : Char)] (("—").data) (entT2 i)
        ((rest.map entT2).flatten) fuel hlen hsegnd]
      rw [show (('-' : Char) :: [('-' : Char)] : Str) = ("--").data
        from rfl]
      rw [ih (fuel - (entT2 i).length) hrest (by
        simp only [List.length_append] at hlen
        omega)]
    cases i with
    | ch c =>
      obtain ⟨-, -, h3, -, -⟩ := entWF_ch c rest h
      have hnd : ∀ d ∈ entT2 (EntItem.ch c), ¬ d = '-' := by
        intro d hd
        simp only [entT2, List.mem_singleton] at hd
        subst hd
        exact h3
      simpa [entT2, entT3] using hstep hnd
    | amp => simpa [entT2, entT3] using hstep (by decide)
    | nb => simpa [entT2, entT3] using hstep (by decide)
    | lt => simpa [entT2, entT3] using hstep (by decide)
    | gt => simpa [entT2, entT3] using hstep (by decide)
    | tag tg =>
      have hmem := entWF_tag tg rest h
      have hnd : ∀ d ∈ entT2 (EntItem.tag tg), ¬ d = '-' := by
        have := (by decide : ∀ t ∈ dpTags, ∀ d ∈ t, ¬ d = '-') tg hmem
        simpa [entT2] using this
      simpa [entT2, entT3] using hstep hnd
    | dd =>
      cases fuel with
      | zero => simp [entT2] at hlen
      | succ fuel2 =>
        rw [show entT2 EntItem.dd ++ (rest.map entT2).flatten
          = '-' :: '-' :: (rest.map entT2).flatten from rfl]
        rw [replaceAllGo_cons]
        rw [if_pos (by simp [List.isPrefixOf])]
        rw [show (('-' : Char) :: '-' :: (rest.map entT2).flatten).drop
            ((("--").data : Str)).length = (rest.map entT2).flatten
          from rfl]
        rw [show entT2 EntItem.dd ++ (rest.map entT2).flatten
          = '-' :: '-' :: (rest.map entT2).flatten from rfl] at hlen
        simp only [List.length_cons] at hlen
        rw [ih fuel2 hrest (by omega)]
        simp [entT3]

theorem convertAngleGo_cons (fuel : ℕ) (c : Char) (rest : Str) :
    convertAngleGo (fuel + 1) (c :: rest) =
      if c = '<' then
        match dpTags.find? (fun t => t.isPrefixOf (c :: rest)) with
        | some t => t ++ convertAngleGo fuel ((c :: rest).drop t.length)
        | none => ("&lt;").data ++ convertAngleGo fuel rest
      else if c = '>' then ("&gt;").data ++ convertAngleGo fuel rest
      else c :: convertAngleGo fuel rest := rfl

theorem convertAngleGo_skip : ∀ (seg rest : Str) (fuel : ℕ),
    (seg ++ rest).length ≤ fuel →
    (∀ c ∈ seg, ¬ c = '<' ∧ ¬ c = '>') →
    convertAngleGo fuel (seg ++ rest)
      = seg ++ convertAngleGo (fuel - seg.length) rest := by
  intro seg
  induction seg with
  | nil => intro rest fuel _ _; simp
  | cons c seg2 ih =>
    intro rest fuel hlen hseg
    obtain ⟨hc1, hc2⟩ := hseg c (by simp)
    cases fuel with
    | zero => simp at hlen
    | succ fuel2 =>
      rw [List.cons_append, convertAngleGo_cons, if_neg hc1, if_neg hc2]
      have hlen2 : (seg2 ++ rest).length ≤ fuel2 := by
        simp only [List.cons_append, List.length_cons] at hlen
        omega
      rw [ih rest fuel2 hlen2 (fun d hd => hseg d (by simp [hd]))]
      simp only [List.cons_append, List.length_cons, Nat.succ_sub_succ]

theorem convertAngleGo_tag_step (tgr rest : Str) (fuel : ℕ)
    (hfind : dpTags.find? (fun t =>
        t.isPrefixOf ('<' :: (tgr ++ rest))) = some ('<' :: tgr)) :
    convertAngleGo (fuel + 1) ('<' :: (tgr ++ rest))
      = ('<' :: tgr) ++ convertAngleGo fuel
          (('<' :: (tgr ++ rest)).drop ('<' :: tgr).length) := by
  rw [convertAngleGo_cons, if_pos rfl, hfind]

theorem convertAngleGo_items : ∀ (items : List EntItem) (fuel : ℕ),
    entWF items = true → ((items.map entT3).flatten).length ≤ fuel →
    convertAngleGo fuel ((items.map entT3).flatten)
      = (items.map entTrans).flatten := by
  intro items
  induction items with
  | nil => intro fuel _ _; cases fuel <;> rfl
  | cons i rest ih =>
    intro fuel h hlen
    have hrest := entWF_cons i rest h
    simp only [List.map_cons, List.flatten_cons] at hlen ⊢
    have hstep : ∀ (hsegna : ∀ c ∈ entT3 i, ¬ c = '<' ∧ ¬ c = '>'),
        convertAngleGo fuel (entT3 i ++ (rest.map entT3).flatten)
          = entT3 i ++ (rest.map entTrans).flatten := by
      intro hsegna
      rw [convertAngleGo_skip (entT3 i) ((rest.map entT3).flatten) fuel
        hlen hsegna]
      rw [ih (fuel - (entT3 i).length) hrest (by
        simp only [List.length_append] at hlen
        omega)]
    cases i with
    | ch c =>
      obtain ⟨-, -, -, h4, h5⟩ := entWF_ch c rest h
      have hna : ∀ d ∈ entT3 (EntItem.ch c), ¬ d = '<' ∧ ¬ d = '>' := by
        intro d hd
        simp only [entT3, List.mem_singleton] at hd
        subst hd
        exact ⟨h4, h5⟩
      simpa [entT3, entTrans] using hstep hna
    | amp => simpa [entT3, entTrans] using hstep (by decide)
    | nb => simpa [entT3, entTrans] using hstep (by decide)
    | dd => simpa [entT3, entTrans] using hstep (by decide)
    | lt =>
      cases fuel with
      | zero => simp [entT3] at hlen
      | succ fuel2 =>
        rw [show entT3 EntItem.lt ++ (rest.map entT3).flatten
          = '<' :: (rest.map entT3).flatten from rfl]
        rw [convertAngleGo_cons, if_pos rfl]
        have hnone : dpTags.find? (fun t =>
            t.isPrefixOf ('<' :: (rest.map entT3).flatten)) = none := by
          apply List.find?_eq_none.mpr
          intro tg hm
          exact fun hc =>
            (List.any_eq_false.mp (entWF_lt rest h)) tg hm hc
        rw [hnone]
        rw [ih fuel2 hrest (by
          simp only [entT3, List.length_append, List.length_cons] at hlen
          omega)]
        simp [entTrans]
    | gt =>
      cases fuel with
      | zero => simp [entT3] at hlen
      | succ fuel2 =>
        rw [show entT3 EntItem.gt ++ (rest.map entT3).flatten
          = '>' :: (rest.map entT3).flatten from rfl]
        rw [convertAngleGo_cons, if_neg (by decide), if_pos rfl]
        rw [ih fuel2 hrest (by
          simp only [entT3, List.length_append, List.length_cons] at hlen
          omega)]
        simp [entTrans]
    | tag tg =>
      have hmem := entWF_tag tg rest h
      obtain ⟨tgr, rfl⟩ : ∃ tgr, tg = '<' :: tgr := by
        simp only [dpTags, List.mem_cons, List.not_mem_nil, or_false]
          at hmem
        rcases hmem with rfl | rfl | rfl | rfl | rfl | rfl | rfl | rfl
          | rfl | rfl | rfl | rfl | rfl | rfl <;>
          exact ⟨_, rfl⟩
      have hfind : dpTags.find? (fun t =>
          t.isPrefixOf ('<' :: (tgr ++ (rest.map entT3).flatten)))
        = some ('<' :: tgr) := by
        simp only [dpTags, List.mem_cons, List.not_mem_nil, or_false]
          at hmem
        rcases hmem with h14 | h14 | h14 | h14 | h14 | h14 | h14 | h14
          | h14 | h14 | h14 | h14 | h14 | h14 <;>
          (rw [show tgr = (('<' :: tgr) : Str).tail from rfl, h14];
            simp [dpTags, List.find?, List.isPrefixOf])
      cases fuel with
      | zero => simp [entT3] at hlen
      | succ fuel2 =>
        show convertAngleGo (fuel2 + 1)
            (('<' :: tgr) ++ (rest.map entT3).flatten) = _
        rw [List.cons_append]
        rw [convertAngleGo_tag_step tgr ((rest.map entT3).flatten) fuel2
          hfind]
        rw [show (('<' :: (tgr ++ (rest.map entT3).flatten)).drop
            (('<' :: tgr) : Str).length) = (rest.map entT3).flatten from by
          simp [List.drop_left]]
        rw [ih fuel2 hrest (by
          simp only [entT3, List.length_append, List.length_cons] at hlen
          omega)]
        simp [entTrans]

/-- C5: the entity pass of `html_convert_entities`, for every text given
by a well-formed item decomposition (arbitrary plain characters, DP tags
and special items in any arrangement), replaces every ampersand by
`&amp;`, every non-breaking space by `&nbsp;`, every double hyphen by an
em dash, and every bare `<`/`>` by `&lt;`/`&gt;`, while every recognised
DP inline tag and every plain character passes through unchanged. -/
theorem C5_entity_substitution (items : List EntItem)
    (h : entWF items = true) :
    html_convert_entities (renderEnts items)
      = (items.map entTrans).flatten := by
  have h1 : replaceAll (("&").data) (("&amp;").data) (renderEnts items)
      = (items.map entT1).flatten := by
    rw [show (("&").data : Str) = [('&' : Char)] from rfl,
      replaceAll_single]
    exact entStage1 items h
  have h2 : replaceAll [Char.ofNat 160] (("&nbsp;").data)
      ((items.map entT1).flatten) = (items.map entT2).flatten := by
    rw [replaceAll_single]
    exact entStage2 items h
  have h3 : replaceAll (("--").data) (("—").data)
      ((items.map entT2).flatten) = (items.map entT3).flatten := by
    unfold replaceAll
    rw [if_neg (by decide)]
    exact replaceAllGo_dd_items items _ h (le_refl _)
  unfold html_convert_entities
  rw [h1, h2, h3]
  exact convertAngleGo_items items _ h (le_refl _)

/-- Witness for C5: the decomposition of `<sc>A&B</sc> 1 < 2` (a DP tag
pair, an ampersand, and a bare `<`), whose translation is
`<sc>A&amp;B</sc> 1 &lt; 2`. -/
theorem C5_entity_substitution_witness :
    entWF [EntItem.tag (("<sc>").data), EntItem.ch 'A', EntItem.amp,
        EntItem.ch 'B', EntItem.tag (("</sc>").data), EntItem.ch ' ',
        EntItem.ch '1', EntItem.ch ' ', EntItem.lt, EntItem.ch ' ',
        EntItem.ch '2'] = true
      ∧ renderEnts [EntItem.tag (("<sc>").data), EntItem.ch 'A',
          EntItem.amp, EntItem.ch 'B', EntItem.tag (("</sc>").data),
          EntItem.ch ' ', EntItem.ch '1', EntItem.ch ' ', EntItem.lt,
          EntItem.ch ' ', EntItem.ch '2'] = ("<sc>A&B</sc> 1 < 2").data
      ∧ html_convert_entities (("<sc>A&B</sc> 1 < 2").data)
        = ("<sc>A&amp;B</sc> 1 &lt; 2").data := by
  refine ⟨by decide, by decide, ?_⟩
  rw [show (("<sc>A&B</sc> 1 < 2").data : Str)
    = renderEnts [EntItem.tag (("<sc>").data), EntItem.ch 'A',
        EntItem.amp, EntItem.ch 'B', EntItem.tag (("</sc>").data),
        EntItem.ch ' ', EntItem.ch '1', EntItem.ch ' ', EntItem.lt,
        EntItem.ch ' ', EntItem.ch '2'] from by decide]
  rw [C5_entity_substitution _ (by decide)]
  decide

/-! ## Small-caps conversion (`html_convert_smallcaps`, `html_convert.py`) -/

/-- Pattern `pat` occurs in `t` at position `i`. -/
def matchesAt (pat t : Str) (i : ℕ) : Bool :=
  decide ((t.drop i).take pat.length = pat)

/-- Backwards search: the last position strictly before `bound` at which
`pat` occurs (`maintext().search(pat, idx, backwards=True)`; the Tk
wrap-around for a missing match is not modelled — the source guards the
missing-open case by returning). -/
def findLastBefore (pat t : Str) (bound : ℕ) : Option ℕ :=
  ((List.range bound).filter (matchesAt pat t)).getLast?

/-- Number of occurrences of `pat` in `t` (used as fuel: each loop
iteration of `html_convert_smallcaps` consumes one `</sc>`). -/
def countOcc (pat t : Str) : ℕ :=
  ((List.range t.length).filter (matchesAt pat t)).length

/-- `\p{Lowercase_Letter}` restricted to the Basic Latin and Latin-1
blocks (the character classes beyond Latin-1 are not tabulated in this
embedding). -/
def isLowerLetter (c : Char) : Bool :=
  (97 ≤ c.toNat && c.toNat ≤ 122) || c.toNat = 181 ||
    (223 ≤ c.toNat && c.toNat ≤ 246) || (248 ≤ c.toNat && c.toNat ≤ 255)

/-- One backwards pass of `html_convert_smallcaps`: find the last `</sc>`,
the last `<sc>` before it, classify the enclosed text (`smcap` if it has a
lowercase letter, else `allsmcap`), replace close then open tags. -/
def smcapGo : ℕ → Str → Str
  | 0, t => t
  | fuel + 1, t =>
    match findLastBefore (("</sc>").data) t t.length with
    | none => t
    | some ce =>
      match findLastBefore (("<sc>").data) t ce with
      | none => t
      | some cs =>
        let test := (t.drop (cs + 4)).take (ce - (cs + 4))
        let classname : Str :=
          if test.any isLowerLetter then ("smcap").data else ("allsmcap").data
        let t1 := t.take ce ++ ("</span>").data ++ t.drop (ce + 5)
        let t2 := t1.take cs ++ ("<span class=\"").data ++ classname
          ++ ("\">").data ++ t1.drop (cs + 4)
        smcapGo fuel t2

/-- `html_convert_smallcaps` from `html_convert.py`. -/
def html_convert_smallcaps (t : Str) : Str :=
  smcapGo (countOcc (("</sc>").data) t) t

theorem matchesAt_head (pat t : Str) (i : ℕ) (hp : pat ≠ [])
    (h : matchesAt pat t i = true) : (t.drop i).head? = pat.head? := by
  unfold matchesAt at h
  rw [decide_eq_true_iff] at h
  cases hd : t.drop i with
  | nil =>
    rw [hd] at h
    simp at h
    exact absurd h hp
  | cons a rest =>
    rw [hd] at h
    cases pat with
    | nil => exact absurd rfl hp
    | cons p ps =>
      simp only [List.length_cons, List.take_succ_cons, List.cons.injEq] at h
      simp [h.1]

theorem filter_range_single (n k : ℕ) (P : ℕ → Bool) (hk : k < n)
    (h : ∀ i < n, (P i = true ↔ i = k)) :
    (List.range n).filter P = [k] := by
  induction n with
  | zero => omega
  | succ m ih =>
    rw [List.range_succ, List.filter_append]
    by_cases hkm : k = m
    · have h1 : (List.range m).filter P = [] := by
        rw [List.filter_eq_nil_iff]
        intro i hi
        have hi' : i < m := List.mem_range.mp hi
        rw [Bool.not_eq_true]
        by_contra hc
        rw [Bool.not_eq_false] at hc
        have := (h i (by omega)).mp hc
        omega
      have h2 : P m = true := (h m (by omega)).mpr hkm.symm
      simp [h1, h2, hkm]
    · have h2 : ¬ P m = true := by
        intro hc
        exact hkm ((h m (by omega)).mp hc).symm
      have h1 : (List.range m).filter P = [k] := by
        apply ih (by omega)
        intro i hi
        exact h i (by omega)
      simp only [h1, List.filter_cons, List.filter_nil]
      rw [if_neg (by simpa using h2)]
      simp

theorem scClose_occ (s : Str) (h : '<' ∉ s) :
    ∀ i < 9 + s.length,
      (matchesAt ['<', '/', 's', 'c', '>']
          ('<' :: 's' :: 'c' :: '>' :: (s ++ ['<', '/', 's', 'c', '>'])) i
            = true
        ↔ i = 4 + s.length) := by
  intro i hi
  set T : Str := '<' :: 's' :: 'c' :: '>' :: (s ++ ['<', '/', 's', 'c', '>'])
    with hT
  constructor
  · intro hm
    rcases Nat.lt_or_ge i 4 with h4 | h4
    · exfalso
      unfold matchesAt at hm
      rw [decide_eq_true_iff] at hm
      interval_cases i <;> simp [hT] at hm
    · have hdrop : T.drop i = (s ++ ['<', '/', 's', 'c', '>']).drop (i - 4) := by
        have h44 : i = (i - 4) + 4 := by omega
        rw [hT]
        conv_lhs => rw [h44]
        rfl
      rcases Nat.lt_or_ge (i - 4) s.length with hj | hj
      · exfalso
        have hd2 : (s ++ ['<', '/', 's', 'c', '>']).drop (i - 4)
            = s.drop (i - 4) ++ ['<', '/', 's', 'c', '>'] := by
          exact List.drop_append_of_le_length (by omega)
        have hhead := matchesAt_head _ _ i (by decide) hm
        rw [hdrop, hd2] at hhead
        cases hsd : s.drop (i - 4) with
        | nil =>
          have hlen := congrArg List.length hsd
          simp at hlen
          omega
        | cons a rest =>
          rw [hsd] at hhead
          simp at hhead
          have ha : a ∈ s := by
            have ha2 : a ∈ s.drop (i - 4) := by rw [hsd]; simp
            exact List.mem_of_mem_drop ha2
          rw [hhead] at ha
          exact h ha
      · by_contra hne
        exfalso
        set k := i - 4 - s.length with hkdef
        have hk : k < 5 := by omega
        have hk1 : 1 ≤ k := by omega
        have hd3 : (s ++ ['<', '/', 's', 'c', '>']).drop (i - 4)
            = (['<', '/', 's', 'c', '>'] : Str).drop k := by
          have h45 : i - 4 = s.length + k := by omega
          rw [h45, ← List.drop_drop, List.drop_left]
        unfold matchesAt at hm
        rw [decide_eq_true_iff, hdrop, hd3] at hm
        interval_cases k <;> simp at hm
  · intro hieq
    subst hieq
    unfold matchesAt
    rw [decide_eq_true_iff]
    have hdrop : T.drop (4 + s.length) = ['<', '/', 's', 'c', '>'] := by
      rw [hT, Nat.add_comm 4 s.length]
      show ((s ++ ['<', '/', 's', 'c', '>']) : Str).drop s.length
        = ['<', '/', 's', 'c', '>']
      exact List.drop_left s _
    rw [hdrop]
    exact List.take_length _

theorem scOpen_occ (s : Str) (h : '<' ∉ s) :
    ∀ i < 4 + s.length,
      (matchesAt ['<', 's', 'c', '>']
          ('<' :: 's' :: 'c' :: '>' :: (s ++ ['<', '/', 's', 'c', '>'])) i
            = true
        ↔ i = 0) := by
  intro i hi
  set T : Str := '<' :: 's' :: 'c' :: '>' :: (s ++ ['<', '/', 's', 'c', '>'])
    with hT
  constructor
  · intro hm
    rcases Nat.lt_or_ge i 4 with h4 | h4
    · interval_cases i
      · rfl
      all_goals
        exfalso
        unfold matchesAt at hm
        rw [decide_eq_true_iff] at hm
        simp [hT] at hm
    · exfalso
      have hdrop : T.drop i = (s ++ ['<', '/', 's', 'c', '>']).drop (i - 4) := by
        have h44 : i = (i - 4) + 4 := by omega
        rw [hT]
        conv_lhs => rw [h44]
        rfl
      have hj : i - 4 < s.length := by omega
      have hd2 : (s ++ ['<', '/', 's', 'c', '>']).drop (i - 4)
          = s.drop (i - 4) ++ ['<', '/', 's', 'c', '>'] := by
        exact List.drop_append_of_le_length (by omega)
      have hhead := matchesAt_head _ _ i (by decide) hm
      rw [hdrop, hd2] at hhead
      cases hsd : s.drop (i - 4) with
      | nil =>
        have hlen := congrArg List.length hsd
        simp at hlen
        omega
      | cons a rest =>
        rw [hsd] at hhead
        simp at hhead
        have ha : a ∈ s := by
          have ha2 : a ∈ s.drop (i - 4) := by rw [hsd]; simp
          exact List.mem_of_mem_drop ha2
        rw [hhead] at ha
        exact h ha
  · intro hieq
    subst hieq
    unfold matchesAt
    rw [decide_eq_true_iff]
    rfl

theorem smcapGo_succ (n : ℕ) (t : Str) (ce cs : ℕ)
    (h1 : findLastBefore (("</sc>").data) t t.length = some ce)
    (h2 : findLastBefore (("<sc>").data) t ce = some cs) :
    smcapGo (n + 1) t = smcapGo n
      ((t.take ce ++ ("</span>").data ++ t.drop (ce + 5)).take cs
        ++ ("<span class=\"").data
        ++ (if ((t.drop (cs + 4)).take (ce - (cs + 4))).any isLowerLetter
            then ("smcap").data else ("allsmcap").data)
        ++ ("\">").data
        ++ (t.take ce ++ ("</span>").data ++ t.drop (ce + 5)).drop (cs + 4)) := by
  rw [smcapGo]
  rw [h1]
  show (match findLastBefore (("<sc>").data) t ce with
    | none => t
    | some cs =>
      smcapGo n
        ((t.take ce ++ ("</span>").data ++ t.drop (ce + 5)).take cs
          ++ ("<span class=\"").data
          ++ (if ((t.drop (cs + 4)).take (ce - (cs + 4))).any isLowerLetter
              then ("smcap").data else ("allsmcap").data)
          ++ ("\">").data
          ++ (t.take ce ++ ("</span>").data ++ t.drop (ce + 5)).drop (cs + 4)))
    = _
  rw [h2]

/-- C8: every `<sc>…</sc>` span is replaced by an HTML span whose class is
`allsmcap` when the enclosed text has no lowercase letter and `smcap` when
it has at least one (shown for a span whose enclosed text contains no
further markup). -/
theorem C8_smallcaps_classification (s : Str) (h : '<' ∉ s) :
    html_convert_smallcaps (("<sc>").data ++ s ++ ("</sc>").data)
      = (if s.any isLowerLetter then ("<span class=\"smcap\">").data
          else ("<span class=\"allsmcap\">").data) ++ s ++ ("</span>").data := by
  have hTc : ("<sc>").data ++ s ++ ("</sc>").data
      = '<' :: 's' :: 'c' :: '>' :: (s ++ ['<', '/', 's', 'c', '>']) := by
    show ['<', 's', 'c', '>'] ++ s ++ ['<', '/', 's', 'c', '>'] = _
    simp
  rw [hTc]
  set T : Str := '<' :: 's' :: 'c' :: '>' :: (s ++ ['<', '/', 's', 'c', '>'])
    with hTdef
  have hTlen : T.length = 9 + s.length := by
    rw [hTdef]
    simp
    omega
  have hclose : (List.range T.length).filter (matchesAt (("</sc>").data) T)
      = [4 + s.length] := by
    rw [hTlen]
    apply filter_range_single _ _ _ (by omega)
    intro i hi
    exact scClose_occ s h i hi
  have hcount : countOcc (("</sc>").data) T = 1 := by
    unfold countOcc
    rw [hclose]
    rfl
  have hfind1 : findLastBefore (("</sc>").data) T T.length
      = some (4 + s.length) := by
    unfold findLastBefore
    rw [hclose]
    rfl
  have hopen : (List.range (4 + s.length)).filter (matchesAt (("<sc>").data) T)
      = [0] := by
    apply filter_range_single _ _ _ (by omega)
    intro i hi
    exact scOpen_occ s h i hi
  have hfind2 : findLastBefore (("<sc>").data) T (4 + s.length) = some 0 := by
    unfold findLastBefore
    rw [hopen]
    rfl
  have htake4 : T.take (4 + s.length) = '<' :: 's' :: 'c' :: '>' :: s := by
    rw [hTdef, Nat.add_comm 4 s.length]
    show '<' :: 's' :: 'c' :: '>' :: ((s ++ ['<', '/', 's', 'c', '>']).take s.length)
      = '<' :: 's' :: 'c' :: '>' :: s
    rw [List.take_left s _]
  have hdrop9 : T.drop (4 + s.length + 5) = [] := by
    apply List.drop_eq_nil_of_le
    omega
  have htest : (T.drop (0 + 4)).take (4 + s.length - (0 + 4)) = s := by
    have harith : 4 + s.length - (0 + 4) = s.length := by omega
    rw [harith, hTdef]
    show ((s ++ ['<', '/', 's', 'c', '>']).take s.length) = s
    exact List.take_left s _
  unfold html_convert_smallcaps
  rw [hcount, smcapGo_succ 0 T (4 + s.length) 0 hfind1 hfind2]
  show ((T.take (4 + s.length) ++ ("</span>").data ++ T.drop (4 + s.length + 5)).take 0
      ++ ("<span class=\"").data
      ++ (if ((T.drop (0 + 4)).take (4 + s.length - (0 + 4))).any isLowerLetter
          then ("smcap").data else ("allsmcap").data)
      ++ ("\">").data
      ++ (T.take (4 + s.length) ++ ("</span>").data
          ++ T.drop (4 + s.length + 5)).drop (0 + 4))
    = _
  rw [htake4, hdrop9, htest]
  by_cases hany : s.any isLowerLetter = true
  · rw [if_pos hany, if_pos hany]
    show ("<span class=\"").data ++ ("smcap").data ++ ("\">").data
        ++ (s ++ ("</span>").data ++ [])
      = ("<span class=\"smcap\">").data ++ s ++ ("</span>").data
    simp
  · rw [if_neg hany, if_neg hany]
    show ("<span class=\"").data ++ ("allsmcap").data ++ ("\">").data
        ++ (s ++ ("</span>").data ++ [])
      = ("<span class=\"allsmcap\">").data ++ s ++ ("</span>").data
    simp

/-- Witness for C8 at concrete inputs: `<sc>AbC</sc>` has a lowercase
letter. -/
theorem C8_smallcaps_classification_witness :
    ('<' ∉ ("AbC").data)
      ∧ html_convert_smallcaps (("<sc>").data ++ ("AbC").data ++ ("</sc>").data)
        = (if ("AbC").data.any isLowerLetter
            then ("<span class=\"smcap\">").data
            else ("<span class=\"allsmcap\">").data)
          ++ ("AbC").data ++ ("</span>").data :=
  ⟨by decide, C8_smallcaps_classification (("AbC").data) (by decide)⟩

/-! ## Helpers for the markup-to-HTML body converter (`html_convert.py`) -/

/-- `str.rstrip()`. -/
def rstripWS (s : Str) : Str := (s.reverse.dropWhile isWS).reverse

/-- `str.lstrip()`. -/
def lstripWS (s : Str) : Str := s.dropWhile isWS

/-- `str.strip()`. -/
def stripWS (s : Str) : Str := rstripWS (lstripWS s)

/-- `len(selection) - len(selection.lstrip())`. -/
def countLeadingWS (s : Str) : ℕ := (s.takeWhile isWS).length

/-- Python's `in` on strings (substring test). -/
def containsStr (pat s : Str) : Bool :=
  (List.range (s.length + 1)).any (matchesAt pat s)

/-- Split a text on newlines (k-1 newlines give k segments). -/
def splitNL : Str → List Str
  | [] => [[]]
  | c :: rest =>
    if c = '\n' then [] :: splitNL rest
    else
      match splitNL rest with
      | [] => [[c]]
      | seg :: segs => (c :: seg) :: segs

/-- Line `row` (1-based) of a document. -/
def getLine (doc : List Str) (row : ℕ) : Str := doc.getD (row - 1) []

/-- Replace line `row` (1-based). -/
def setLine (doc : List Str) (row : ℕ) (l : Str) : List Str :=
  doc.set (row - 1) l

/-- Apply `f` to line `row` (1-based). -/
def modifyLine (doc : List Str) (row : ℕ) (f : Str → Str) : List Str :=
  doc.set (row - 1) (f (getLine doc row))

/-- Insert (possibly multi-line) `text` at the start of line `row`
(`maintext().insert(f"{row}.0", text)`). -/
def insertAtLineStart (doc : List Str) (row : ℕ) (text : Str) : List Str :=
  let segs := splitNL text
  doc.take (row - 1) ++ segs.dropLast
    ++ [(segs.getLastD []) ++ getLine doc row] ++ doc.drop row

/-- Parse `.+?\}`: the shortest nonempty content followed by `}` (the first
character is always consumed, then everything up to the next `}`). -/
def splitAtBrace : Str → Option (Str × Str)
  | [] => none
  | c :: rest =>
    match rest.dropWhile (fun d => d ≠ '}') with
    | _ :: rest2 => some (c :: rest.takeWhile (fun d => d ≠ '}'), rest2)
    | [] => none

/-- `re.sub(r"_\{(.+?)\}", r"<sub>\1</sub>", s)` — fuel-structural scanner. -/
def subBraceGo : ℕ → Str → Str
  | 0, s => s
  | _ + 1, [] => []
  | fuel + 1, c :: rest =>
    if c = '_' then
      match rest with
      | b :: rest2 =>
        if b = '{' then
          match splitAtBrace rest2 with
          | some (content, rest3) =>
            ("<sub>").data ++ content ++ ("</sub>").data ++ subBraceGo fuel rest3
          | none => c :: subBraceGo fuel rest
        else c :: subBraceGo fuel rest
      | [] => [c]
    else c :: subBraceGo fuel rest

/-- `re.sub(r"\^{(.+?)\}", r"<sup>\1</sup>", s)`. -/
def supBraceGo : ℕ → Str → Str
  | 0, s => s
  | _ + 1, [] => []
  | fuel + 1, c :: rest =>
    if c = '^' then
      match rest with
      | b :: rest2 =>
        if b = '{' then
          match splitAtBrace rest2 with
          | some (content, rest3) =>
            ("<sup>").data ++ content ++ ("</sup>").data ++ supBraceGo fuel rest3
          | none => c :: supBraceGo fuel rest
        else c :: supBraceGo fuel rest
      | [] => [c]
    else c :: supBraceGo fuel rest

/-- `re.sub(r"\^(.)", r"<sup>\1</sup>", s)`. -/
def supCharGo : ℕ → Str → Str
  | 0, s => s
  | _ + 1, [] => []
  | fuel + 1, c :: rest =>
    if c = '^' then
      match rest with
      | d :: rest2 => ("<sup>").data ++ d :: ("</sup>").data ++ supCharGo fuel rest2
      | [] => [c]
    else c :: supCharGo fuel rest

/-- `html_convert_sub_super` from `html_convert.py`: the three sub/super
substitutions on one line, in source order (the document line is updated to
the returned text).  The fuel of the second and third passes is the
original line length, so on lines the first pass lengthens a tail can be
left unprocessed; the fixed points of this function are exactly those of
the source chain, which is what the theorems use. -/
def html_convert_sub_super (s : Str) : Str :=
  supCharGo s.length
    (supBraceGo s.length (subBraceGo s.length s))

/-- The thought-break star line `(       \*){5}` — seven spaces and an
asterisk, five times. -/
def tbStars : Str :=
  ("       *       *       *       *       *").data

/-- `html_convert_tb` from `html_convert.py`: returns the converted line
and whether the line was a thought break (so the caller skips the rest of
the per-line processing). -/
def html_convert_tb (s : Str) : Str × Bool :=
  if s = tbStars then (("<hr class=\"tb\">").data, true)
  else if containsStr (("<tb>").data) s then
    (replaceAll (("<tb>").data) (("<hr class=\"tb\">").data) s, true)
  else (s, false)

/-- `str.rfind(pat)` as an integer (−1 when absent). -/
def rfindZ (pat s : Str) : ℤ :=
  match findLastBefore pat s s.length with
  | none => -1
  | some i => (i : ℤ)

/-- The italic/bold/smallcap carry-over flags (`ibs_dict`). -/
structure IbsFlags where
  i : Bool
  b : Bool
  sc : Bool
deriving Repr, DecidableEq

/-- Flag update for one tag kind of `do_per_line_markup`: left open if the
last open tag follows the last close tag, left closed in the converse case,
unchanged when neither occurs. -/
def ibsUpdate (tagO tagC sel : Str) (old : Bool) : Bool :=
  let o := rfindZ tagO sel
  let c := rfindZ tagC sel
  if c < o then true else if o < c then false else old

/-- `do_per_line_markup` from `html_convert.py`: flag inspection uses the
`selection` text, while the open/close tags are inserted around the current
document line (iterating i, b, sc; inserts at line start stack in reverse
order).  Returns the decorated line and updated flags; empty selection is a
no-op. -/
def do_per_line_markup (sel docLine : Str) (fl : IbsFlags) : Str × IbsFlags :=
  if sel.isEmpty then (docLine, fl)
  else
    let nI := ibsUpdate (("<i>").data) (("</i>").data) sel fl.i
    let nB := ibsUpdate (("<b>").data) (("</b>").data) sel fl.b
    let nSc := ibsUpdate (("<sc>").data) (("</sc>").data) sel fl.sc
    ((if fl.sc then ("<sc>").data else []) ++ (if fl.b then ("<b>").data else [])
        ++ (if fl.i then ("<i>").data else []) ++ docLine
        ++ (if nI then ("</i>").data else []) ++ (if nB then ("</b>").data else [])
        ++ (if nSc then ("</sc>").data else []),
      ⟨nI, nB, nSc⟩)

/-- `poetry_indentation` from `html_convert.py`: minimum indentation of the
non-blank lines of the poem (1000 when there are none). -/
def poetry_indentation (lines : List Str) : ℕ :=
  lines.foldl
    (fun m l => if (lstripWS l).isEmpty then m else min m (countLeadingWS l))
    1000

/-- Poetry line-number suffix ` {2,}(\d+) *$` on a (right-stripped) line:
the digits and the total matched length. -/
def poetryLineNum (s : Str) : Option (Str × ℕ) :=
  let digs := s.reverse.takeWhile Char.isDigit
  let beforeDigs := s.reverse.dropWhile Char.isDigit
  let sps := beforeDigs.takeWhile (fun c => c = ' ')
  if digs.isEmpty || sps.length < 2 then none
  else some (digs.reverse, digs.length + sps.length)

/-- Python `str` of a natural number times 0.5 (`n * 0.5`), e.g. `1.5`,
`2.0`. -/
def halfStr (n : ℕ) : Str :=
  (toString (n / 2)).data ++ (if n % 2 = 0 then (".0").data else (".5").data)

/-- Python `str` of `i * 0.5 - 3` for an integer `i` (the poetry-indent
CSS rule), via `h = i - 6` half-units. -/
def halfStrZ (i : ℤ) : Str :=
  let h := i - 6
  (if h < 0 then [('-' : Char)] else [])
    ++ (toString (h.natAbs / 2)).data
    ++ (if h % 2 = 0 then (".0").data else (".5").data)

/-- Python `str` of an integer. -/
def intStr (i : ℤ) : Str := (toString i).data

/-- `re.sub("&[a-z]+?;", repl, s)`: each HTML entity reference replaced by
`repl` (fuel-structural scanner; since `;` is not in `[a-z]`, non-greedy
and greedy agree). -/
def entitySubGo (repl : Str) : ℕ → Str → Str
  | 0, s => s
  | _ + 1, [] => []
  | fuel + 1, c :: rest =>
    if c = '&' then
      let name := rest.takeWhile (fun d => 'a' ≤ d && d ≤ 'z')
      match rest.dropWhile (fun d => 'a' ≤ d && d ≤ 'z') with
      | d :: rest2 =>
        if d = ';' && !name.isEmpty then repl ++ entitySubGo repl fuel rest2
        else c :: entitySubGo repl fuel rest
      | [] => c :: entitySubGo repl fuel rest
    else c :: entitySubGo repl fuel rest

/-- `re.sub("&[a-z]+?;", repl, s)`. -/
def entitySub (repl s : Str) : Str := entitySubGo repl s.length s

/-- Remove the literal sub/superscript tags
(`re.sub("</?su[pb]>", "", len_str)`), as four sequential global
replacements; these can differ from the one-pass regex when a removal
splices a new tag occurrence together. -/
def stripSupSubTags (s : Str) : Str :=
  replaceAll (("</sub>").data) []
    (replaceAll (("</sup>").data) []
      (replaceAll (("<sub>").data) []
        (replaceAll (("<sup>").data) [] s)))

/-- First row ≥ `start` (1-based) whose line satisfies `p`. -/
def findFromRow (doc : List Str) (start : ℕ) (p : Str → Bool) : Option ℕ :=
  match (doc.drop (start - 1)).findIdx? p with
  | none => none
  | some k => some (start + k)

/-- Error raised by the body conversion: a `SyntaxError` (caught and logged
by `html_autogenerate`) or the `ValueError` that `max(right_line_lengths)`
raises on an empty `/r` block (not caught anywhere). -/
inductive BodyErr where
  | syntaxErr : Str → BodyErr
  | valueError : BodyErr
deriving Repr, DecidableEq

/-- The state of `html_convert_body`'s line loop (`html_convert.py`,
lines 179–226): the document plus every local flag of the source.
`contentsStart` is the row of `contents_start` when it has been moved off
`"1.0"`. -/
structure BodyState where
  doc : List Str
  contentsStart : Option ℕ
  inChapHeading : Bool
  chapId : Str
  chapHeading : Str
  autoToc : Str
  inPara : Bool
  inFrontPara : Bool
  inStanza : Bool
  preFlag : Bool
  frontFlag : Bool
  poetryFlag : Bool
  listFlag : Bool
  indexFlag : Bool
  dollarFlag : Bool
  asteriskFlag : Bool
  centerFlag : Bool
  rightFlag : Bool
  rightBlockLineNum : ℕ
  poetryIndent : ℕ
  blockquoteLevel : ℕ
  rightLineLengths : List ℕ
  indexBlankLines : ℕ
  ibs : IbsFlags
  cssIndents : List ℤ
deriving Repr, DecidableEq

/-- Initial state of the body loop. -/
def initBodyState (doc : List Str) : BodyState :=
  ⟨doc, none, false, [], [], [], false, false, false, false, false, false,
    false, false, false, false, false, false, 0, 0, 0, [], 0,
    ⟨false, false, false⟩, []⟩

/-- `f"Line {step}: {txt}"`. -/
def lineMsg (step : ℕ) (txt : Str) : Str :=
  ("Line ").data ++ (toString step).data ++ (": ").data ++ txt

/-- `check_illegal_nesting` from `html_convert_body`. -/
def checkIllegalNesting (st : BodyState) (step : ℕ) : Option BodyErr :=
  if st.preFlag || st.frontFlag || st.poetryFlag || st.listFlag
      || st.dollarFlag || st.asteriskFlag || st.centerFlag || st.rightFlag
      || st.indexFlag then
    some (.syntaxErr (lineMsg step (("Illegally nested block markup").data)))
  else none

/-- `reset_ibs_dict`. -/
def resetIbs (st : BodyState) : BodyState := {st with ibs := ⟨false, false, false⟩}

/-- Pad the lines of a completed `/r` block (the loop at the end of the
`r/` close handler): 0.5em of left margin per missing character, plus a
trailing `<br>` on every line. -/
def padRightBlock (doc : List Str) (startRow : ℕ) (lens : List ℕ)
    (maxLen : ℕ) : List Str :=
  (lens.foldl
    (fun (acc : List Str × ℕ) ln =>
      let row := acc.2 + 1
      let pad := maxLen - ln
      let d :=
        if ln > 0 && pad > 0 then
          modifyLine acc.1 row
            (fun l => ("<span style=\"margin-left: ").data ++ halfStr pad
              ++ ("em;\">").data ++ l ++ ("</span>").data)
        else acc.1
      (modifyLine d row (fun l => l ++ ("<br>").data), row))
    (doc, startRow)).1

/-- Modelled from the spec: `DiacriticRemover.remove_diacritics`
(`guiguts/utilities.py`, absent from this snapshot) — strip accented
characters to their base form; tabulated here for the Latin-1 letters,
identity elsewhere. -/
def removeDiacriticChar (c : Char) : Char :=
  let n := c.toNat
  if 192 ≤ n && n ≤ 197 then 'A'
  else if n = 199 then 'C'
  else if 200 ≤ n && n ≤ 203 then 'E'
  else if 204 ≤ n && n ≤ 207 then 'I'
  else if n = 209 then 'N'
  else if (210 ≤ n && n ≤ 214) || n = 216 then 'O'
  else if 217 ≤ n && n ≤ 220 then 'U'
  else if n = 221 then 'Y'
  else if 224 ≤ n && n ≤ 229 then 'a'
  else if n = 231 then 'c'
  else if 232 ≤ n && n ≤ 235 then 'e'
  else if 236 ≤ n && n ≤ 239 then 'i'
  else if n = 241 then 'n'
  else if (242 ≤ n && n ≤ 246) || n = 248 then 'o'
  else if 249 ≤ n && n ≤ 252 then 'u'
  else if n = 253 || n = 255 then 'y'
  else c

/-- Modelled from the spec (see `removeDiacriticChar`). -/
def remove_diacritics (s : Str) : Str := s.map removeDiacriticChar

/-- `\p{Dash_Punctuation}` (common members). -/
def isDashPunct (c : Char) : Bool :=
  c = '-' || c = '–' || c = '—' || c = '‐' || c = '‑' || c = '‒' || c = '―'

/-- Replace each maximal run of `isIn` characters by the single character
`repl`. -/
def collapseRunsGo (isIn : Char → Bool) (repl : Char) (inRun : Bool) :
    Str → Str
  | [] => []
  | c :: rest =>
    if isIn c then
      if inRun then collapseRunsGo isIn repl true rest
      else repl :: collapseRunsGo isIn repl true rest
    else c :: collapseRunsGo isIn repl false rest

/-- Replace each maximal run of `isIn` characters by `repl`. -/
def collapseRuns (isIn : Char → Bool) (repl : Char) (s : Str) : Str :=
  collapseRunsGo isIn repl false s

/-- `re.sub("<su[bp]>.+?</subp>", "", string)` from `make_anchor`
(embedded with the source's literal close tag `</subp>`). -/
def stripSubSupSpanGo : ℕ → Str → Str
  | 0, s => s
  | _ + 1, [] => []
  | fuel + 1, c :: rest =>
    if (("<sub>").data.isPrefixOf (c :: rest)
          || ("<sup>").data.isPrefixOf (c :: rest)) then
      let after := (c :: rest).drop 5
      match ((List.range (after.length + 1)).filter
          (matchesAt (("</subp>").data) after)).head? with
      | some k =>
        if 1 ≤ k then stripSubSupSpanGo fuel (after.drop (k + 7))
        else c :: stripSubSupSpanGo fuel rest
      | none => c :: stripSubSupSpanGo fuel rest
    else c :: stripSubSupSpanGo fuel rest

/-- Letters/numbers as used by `make_anchor`'s `\p{Letter}\p{Number}`
classes, tabulated for ASCII and the Latin-1 letters (the few remaining
Latin-1 members of the classes, such as the ordinal and fraction signs,
are not included). -/
def isLetterNum (c : Char) : Bool :=
  c.isAlpha || c.isDigit
    || (192 ≤ c.toNat && c.toNat ≤ 255 && c.toNat ≠ 215 && c.toNat ≠ 247)

/-- `re.sub(r"</?[\p{Letter}\p{Number}]+?>", "", string)`: strip remaining
HTML-ish tags. -/
def stripTagsGo : ℕ → Str → Str
  | 0, s => s
  | _ + 1, [] => []
  | fuel + 1, c :: rest =>
    if c = '<' then
      let body := match rest with
        | d :: rest2 => if d = '/' then rest2 else rest
        | [] => []
      let name := body.takeWhile isLetterNum
      match body.dropWhile isLetterNum with
      | d :: rest3 =>
        if d = '>' && !name.isEmpty then stripTagsGo fuel rest3
        else c :: stripTagsGo fuel rest
      | [] => c :: stripTagsGo fuel rest
    else c :: stripTagsGo fuel rest

/-- `\p{Separator}` (space and no-break space). -/
def isSeparator (c : Char) : Bool := c = ' ' || c.toNat = 160

/-- `make_anchor` from `html_convert.py`: diacritics stripped, dash
punctuation collapsed to `-`, entity references to `_`, sub/superscript
spans and other tags removed, disallowed characters dropped, separators
collapsed to `_`, repeated underscores collapsed. -/
def make_anchor (s : Str) : Str :=
  let s1 := remove_diacritics s
  let s2 := collapseRuns isDashPunct '-' s1
  let s3 := entitySub [('_' : Char)] s2
  let s4 := stripSubSupSpanGo s3.length s3
  let s5 := stripTagsGo s4.length s4
  let s6 := s5.filter
    (fun c => c = '-' || c = '_' || isLetterNum c || isSeparator c)
  let s7 := collapseRuns isSeparator '_' s6
  collapseRuns (fun c => c = '_') '_' s7

/-- One iteration of the `html_convert_body` loop for row `step`
(`html_convert.py`, lines 227–566), returning the new state and an error
when the iteration raises.  Notes on the embedding: document edits are
modelled line-locally (the source assumes, after `remove_trailing_spaces`,
that the leading-space deletion stays within the line); `selection_lower`
is computed before the sub/superscript conversion, exactly as in the
source. -/
def bodyStep (st0 : BodyState) (step : ℕ) : BodyState × Option BodyErr :=
  let line0 := getLine st0.doc step
  let nSpaces := countLeadingWS line0
  let selStrip := rstripWS line0
  let st1 := {st0 with doc := setLine st0.doc step selStrip}
  let selectionLower0 := pyLower selStrip
  let st2 :=
    if step < 100 && st1.contentsStart = none
        && containsStr (("contents").data) selectionLower0 then
      {st1 with contentsStart := some (step + 2)}
    else st1
  let sel := html_convert_sub_super selStrip
  let st3 := {st2 with doc := setLine st2.doc step sel}
  let tb := html_convert_tb sel
  if tb.2 then ({st3 with doc := setLine st3.doc step tb.1}, none)
  else if pyLower sel = ("/x").data then
    ({st3 with
        doc := setLine st3.doc step (("<pre>").data)
        preFlag := true}, none)
  else if st3.preFlag then
    (if pyLower sel = ("x/").data then
      {st3 with
          doc := setLine st3.doc step (("</pre>").data)
          preFlag := false}
     else st3, none)
  else
  let st4 := {st3 with doc := modifyLine st3.doc step (fun l => l.drop nSpaces)}
  if pyLower sel = ("/f").data then
    ({st4 with
        doc := setLine st4.doc step []
        frontFlag := true
        inFrontPara := false}, none)
  else if st4.frontFlag then
    (if pyLower sel = ("f/").data then
      let d1 :=
        if st4.inFrontPara then
          modifyLine st4.doc (step - 1) (fun l => l ++ ("</p>").data)
        else st4.doc
      {st4 with
          doc := setLine d1 step []
          frontFlag := false}
     else if !sel.isEmpty then
      if !st4.inFrontPara then
        {st4 with
            doc := modifyLine st4.doc step
              (fun l => ("<p class=\"center\">").data ++ l)
            inFrontPara := true}
      else st4
     else if st4.inFrontPara then
      {st4 with
          doc := modifyLine st4.doc (step - 1) (fun l => l ++ ("</p>").data)
          inFrontPara := false}
     else st4, none)
  else if pyLower sel = ("/p").data then
    let st5 :=
      {st4 with
        doc := setLine st4.doc step
          (("<div class=\"poetry-container\"><div class=\"poetry\">").data)
        poetryFlag := true
        inStanza := false}
    match findFromRow st5.doc (step + 1)
        (fun l => pyLower l = ("p/").data) with
    | none => (st5, some (.syntaxErr (lineMsg step (("Unclosed poetry").data))))
    | some j =>
      let st6 := resetIbs st5
      ({st6 with
          poetryIndent :=
            poetry_indentation ((st6.doc.drop step).take (j - step - 1))},
        none)
  else if st4.poetryFlag then
    if pyLower sel = ("p/").data then
      let d1 :=
        if st4.inStanza then
          modifyLine st4.doc (step - 1) (fun l => l ++ ("</div>").data)
        else st4.doc
      ({st4 with
          doc := setLine d1 step (("</div></div>").data)
          poetryFlag := false}, none)
    else if !sel.isEmpty then
      let lnum := poetryLineNum sel
      let replacement := match lnum with
        | some dl => ("<span class=\"linenum\">").data ++ dl.1
            ++ ("</span>").data
        | none => []
      let d1 := match lnum with
        | some dl => modifyLine st4.doc step (fun l => l.take (l.length - dl.2))
        | none => st4.doc
      let ml := do_per_line_markup sel (getLine d1 step) st4.ibs
      let indent : ℤ := (nSpaces : ℤ) - (st4.poetryIndent : ℤ)
      let line2 := ("<div class=\"verse indent").data ++ intStr indent
        ++ ("\">").data ++ ml.1 ++ replacement ++ ("</div>").data
      let line3 :=
        if st4.inStanza then line2
        else ("<div class=\"stanza\">").data ++ line2
      let css2 :=
        if indent ∈ st4.cssIndents then st4.cssIndents
        else st4.cssIndents ++ [indent]
      ({st4 with
          doc := setLine d1 step line3
          ibs := ml.2
          inStanza := true
          cssIndents := css2}, none)
    else if st4.inStanza then
      ({st4 with
          doc := modifyLine st4.doc (step - 1) (fun l => l ++ ("</div>").data)
          inStanza := false}, none)
    else (st4, none)
  else if selectionLower0 = ("/l").data then
    (resetIbs
      {st4 with
          doc := setLine st4.doc step (("<ul>").data)
          listFlag := true}, none)
  else if st4.listFlag then
    if selectionLower0 = ("l/").data then
      ({st4 with
          doc := setLine st4.doc step (("</ul>").data)
          listFlag := false}, none)
    else if !sel.isEmpty then
      let ml := do_per_line_markup sel (getLine st4.doc step) st4.ibs
      ({st4 with
          doc := setLine st4.doc step
            (("<li>").data ++ ml.1 ++ ("</li>").data)
          ibs := ml.2}, none)
    else (st4, none)
  else if (("/#").data).isPrefixOf sel then
    ({st4 with
        blockquoteLevel := st4.blockquoteLevel + 1
        doc := setLine st4.doc step (("<div class=\"blockquot\">").data)},
      none)
  else if sel = ("#/").data then
    if st4.blockquoteLevel > 0 then
      ({st4 with
          blockquoteLevel := st4.blockquoteLevel - 1
          doc := setLine st4.doc step (("</div>").data)}, none)
    else
      (st4, some (.syntaxErr
        (lineMsg step (("Unmatched close blockquote (#/)").data))))
  else if sel = ("/$").data then
    match checkIllegalNesting st4 step with
    | some e => (st4, some e)
    | none =>
      (resetIbs
        {st4 with
            dollarFlag := true
            doc := setLine st4.doc step (("<p>").data)}, none)
  else if st4.dollarFlag && sel = ("$/").data then
    ({st4 with
        dollarFlag := false
        doc := setLine st4.doc step (("</p>").data)}, none)
  else if sel = ("/*").data then
    match checkIllegalNesting st4 step with
    | some e => (st4, some e)
    | none =>
      (resetIbs
        {st4 with
            asteriskFlag := true
            doc := setLine st4.doc step (("<p>").data)}, none)
  else if st4.asteriskFlag && sel = ("*/").data then
    ({st4 with
        asteriskFlag := false
        doc := setLine st4.doc step (("</p>").data)}, none)
  else if st4.dollarFlag || st4.asteriskFlag then
    let ml := do_per_line_markup sel (getLine st4.doc step) st4.ibs
    let nl2 :=
      if nSpaces > 0 then
        ("<span style=\"margin-left: ").data ++ halfStr nSpaces
          ++ ("em;\">").data ++ ml.1 ++ ("</span>").data
      else ml.1
    ({st4 with
        doc := setLine st4.doc step (nl2 ++ ("<br>").data)
        ibs := ml.2}, none)
  else if selectionLower0 = ("/i").data then
    match checkIllegalNesting st4 step with
    | some e => (st4, some e)
    | none =>
      (resetIbs
        {st4 with
            indexFlag := true
            doc := setLine st4.doc step (("<ul class=\"index\">").data)
            indexBlankLines := 2}, none)
  else if st4.indexFlag then
    if selectionLower0 = ("i/").data then
      ({st4 with
          indexFlag := false
          doc := setLine st4.doc step (("</ul>").data)}, none)
    else if sel.isEmpty then
      ({st4 with indexBlankLines := st4.indexBlankLines + 1}, none)
    else
      let classname :=
        if st4.indexBlankLines ≥ 2 then ("ifrst").data
        else if st4.indexBlankLines = 1 then ("indx").data
        else ("isub").data ++ (toString ((nSpaces + 1) / 2)).data
      ({st4 with
          doc := setLine st4.doc step
            (("<li class=\"").data ++ classname ++ ("\">").data
              ++ getLine st4.doc step ++ ("</li>").data)
          indexBlankLines := 0}, none)
  else if selectionLower0 = ("/c").data then
    match checkIllegalNesting st4 step with
    | some e => (st4, some e)
    | none =>
      (resetIbs
        {st4 with
            centerFlag := true
            doc := setLine st4.doc step (("<p class=\"center\">").data)},
        none)
  else if st4.centerFlag then
    if selectionLower0 = ("c/").data then
      ({st4 with
          centerFlag := false
          doc := setLine st4.doc step (("</p>").data)}, none)
    else
      let ml := do_per_line_markup sel (getLine st4.doc step) st4.ibs
      ({st4 with
          doc := setLine st4.doc step (ml.1 ++ ("<br>").data)
          ibs := ml.2}, none)
  else if selectionLower0 = ("/r").data then
    match checkIllegalNesting st4 step with
    | some e => (st4, some e)
    | none =>
      (resetIbs
        {st4 with
            rightFlag := true
            doc := setLine st4.doc step (("<p class=\"right\">").data)
            rightLineLengths := []
            rightBlockLineNum := step}, none)
  else if st4.rightFlag then
    if selectionLower0 = ("r/").data then
      let d1 := setLine st4.doc step (("</p>").data)
      match st4.rightLineLengths with
      | [] =>
        ({st4 with
            doc := d1
            rightFlag := false}, some .valueError)
      | l0 :: ls =>
        let maxLen := (l0 :: ls).foldl max 0
        ({st4 with
            doc := padRightBlock d1 st4.rightBlockLineNum (l0 :: ls) maxLen
            rightFlag := false}, none)
    else
      let lenStr := stripSupSubTags (entitySub [('X' : Char)] sel)
      let ml := do_per_line_markup sel (getLine st4.doc step) st4.ibs
      ({st4 with
          doc := setLine st4.doc step ml.1
          rightLineLengths := st4.rightLineLengths ++ [lenStr.length]
          ibs := ml.2}, none)
  else if st4.inChapHeading then
    if !sel.isEmpty then
      ({st4 with
          chapHeading := st4.chapHeading
            ++ (if st4.chapHeading.isEmpty then [] else [' '])
            ++ stripWS sel}, none)
    else
      ({st4 with
          doc := modifyLine st4.doc step
            (fun l => ("</h2></div>").data ++ l)
          autoToc := st4.autoToc ++ ("<a href=\"").data ++ st4.chapId
            ++ ("\">").data ++ st4.chapHeading ++ ("</a><br>").data ++ ['\n']
          inChapHeading := false}, none)
  else if !sel.isEmpty then
    (if !st4.inPara then
      {st4 with
          doc := modifyLine st4.doc step (fun l => ("<p>").data ++ l)
          inPara := true}
     else st4, none)
  else if st4.inPara then
    ({st4 with
        doc := modifyLine st4.doc (step - 1) (fun l => l ++ ("</p>").data)
        inPara := false}, none)
  else if 4 ≤ step && getLine st4.doc (step - 3) = []
      && getLine st4.doc (step - 2) = [] && getLine st4.doc (step - 1) = []
      && getLine st4.doc step = []
      && (match st4.doc.getD step [] with | _ :: _ => true | [] => false) then
    let cid := make_anchor (getLine st4.doc (step + 1))
    ({st4 with
        doc := modifyLine
          (modifyLine st4.doc (step - 1)
            (fun l => ("<div class=\"chapter\">").data ++ l))
          step (fun l => ("<h2 class=\"nobreak\" id=\"").data ++ cid
            ++ ("\">").data ++ l)
        chapId := cid
        inChapHeading := true
        chapHeading := []}, none)
  else (st4, none)

/-! ## The body conversion pipeline (`html_convert_body`, `html_convert.py`) -/

/-- The unclosed-markup checks after the line loop (`html_convert.py`,
lines 572–587), in source order; the first open construct wins. -/
def eofCheck (st : BodyState) : Option BodyErr :=
  if st.preFlag then
    some (.syntaxErr (("Pre-formatted (/x) markup not closed by end of file").data))
  else if st.frontFlag then
    some (.syntaxErr (("Frontmatter (/f) markup not closed by end of file").data))
  else if st.poetryFlag then
    some (.syntaxErr (("Poetry (/p) markup not closed by end of file").data))
  else if st.listFlag then
    some (.syntaxErr (("List (/l) markup not closed by end of file").data))
  else if st.dollarFlag then
    some (.syntaxErr (("List (/$) markup not closed by end of file").data))
  else if st.asteriskFlag then
    some (.syntaxErr (("List (/*) markup not closed by end of file").data))
  else if st.indexFlag then
    some (.syntaxErr (("List (/i) markup not closed by end of file").data))
  else if st.blockquoteLevel > 0 then
    some (.syntaxErr (("Blockquote (/#) not closed by end of file").data))
  else none

/-- The body line loop `while next_step < maintext().end().row` with `step`
starting at 1: the widget row count `end().row` is `doc.length + 1` and no
iteration changes the line count, so the loop visits rows `1..doc.length`
(the fuel counts the rows still to visit; a raise stops the loop). -/
def bodyLoop : BodyState → ℕ → ℕ → BodyState × Option BodyErr
  | st, _, 0 => (st, none)
  | st, step, fuel + 1 =>
    match bodyStep st step with
    | (st2, some e) => (st2, some e)
    | (st2, none) => bodyLoop st2 (step + 1) fuel

/-- The autogenerated-TOC text inserted at `contents_start`. -/
def tocText (autoToc : Str) : Str :=
  ("\n<!-- Autogenerated TOC. Modify or delete as required. -->\n<p>\n").data
    ++ autoToc ++ ("</p>\n<!-- End Autogenerated TOC. -->\n\n").data

/-- `html_convert_body` up to (and excluding) `insert_header_footer` and
`flush_css_indents`, whose inserted text comes from header files: the line
loop from row 1, the final unclosed-paragraph `</p>` (an insert at
`tk.END`, which appends a line), the unclosed-markup checks, and the TOC
insertion at `contents_start`.  Returns the edited document and the raised
error, if any; edits made before a raise persist. -/
def html_convert_body_core (doc : List Str) : List Str × Option BodyErr :=
  match bodyLoop (initBodyState doc) 1 doc.length with
  | (st, some e) => (st.doc, some e)
  | (st, none) =>
    let d1 := if st.inPara then st.doc ++ [("</p>").data] else st.doc
    match eofCheck st with
    | some e => (d1, some e)
    | none =>
      if st.autoToc.isEmpty then (d1, none)
      else
        (insertAtLineStart d1 (st.contentsStart.getD 1) (tocText st.autoToc),
          none)

/-- `remove_trailing_spaces`: `replace_all(" +$", "", regexp=True)` — strip
trailing space characters (only spaces) from every line. -/
def remove_trailing_spaces (doc : List Str) : List Str :=
  doc.map (fun l => (l.reverse.dropWhile (fun c => c = ' ')).reverse)

/-- `HTMLMarkupTypes` (a `StrEnum` in the source). -/
inductive HTMLMarkupType where
  | keep
  | em
  | emClass
  | spanClass
deriving Repr, DecidableEq

/-- The five inline-markup preferences keyed by `inline_conversion_dict`
(italic, bold, gesperrt, font/antiqua, underline). -/
structure InlinePrefs where
  italic : HTMLMarkupType
  bold : HTMLMarkupType
  gesperrt : HTMLMarkupType
  font : HTMLMarkupType
  underline : HTMLMarkupType
deriving Repr, DecidableEq

/-- One entry of `html_convert_inline`'s loop: replace `<x>`/`</x>`
according to the markup-type preference (open tags first, as in the
source). -/
def inlineOne (ty : HTMLMarkupType) (letter classname : Str) (t : Str) : Str :=
  match ty with
  | .keep => t
  | .em =>
    replaceAll (("</").data ++ letter ++ (">").data) (("</em>").data)
      (replaceAll (("<").data ++ letter ++ (">").data) (("<em>").data) t)
  | .emClass =>
    replaceAll (("</").data ++ letter ++ (">").data) (("</em>").data)
      (replaceAll (("<").data ++ letter ++ (">").data)
        (("<em class=\"").data ++ classname ++ ("\">").data) t)
  | .spanClass =>
    replaceAll (("</").data ++ letter ++ (">").data) (("</span>").data)
      (replaceAll (("<").data ++ letter ++ (">").data)
        (("<span class=\"").data ++ classname ++ ("\">").data) t)

/-- `html_convert_inline`: the five tag kinds in dictionary order (none of
the patterns contains a newline, so the buffer-wide `replace_all` acts on
the joined text). -/
def html_convert_inline (p : InlinePrefs) (t : Str) : Str :=
  inlineOne p.underline (("u").data) (("u").data)
    (inlineOne p.font (("f").data) (("antiqua").data)
      (inlineOne p.gesperrt (("g").data) (("gesperrt").data)
        (inlineOne p.bold (("b").data) (("bold").data)
          (inlineOne p.italic (("i").data) (("italic").data) t))))

/-- `html_autogenerate` over the document (the backup `save_copy` is file
I/O and not modelled; `hf` abstracts `insert_header_footer` plus
`flush_css_indents`, whose inserted text comes from header files and which
run only when the body pass finishes): trailing spaces are removed and
entities converted; a `SyntaxError` from the body pass is caught and
logged, after which the inline and small-caps passes still run on the
partially converted document; the `ValueError` of an empty `/r` block is
not caught and aborts the sequence. -/
def html_autogenerate (p : InlinePrefs) (hf : List Str → List Str)
    (doc : List Str) : List Str × Option BodyErr :=
  match html_convert_body_core
      ((remove_trailing_spaces doc).map html_convert_entities) with
  | (d3, some BodyErr.valueError) => (d3, some BodyErr.valueError)
  | (d3, some (BodyErr.syntaxErr msg)) =>
    (splitNL (html_convert_smallcaps (html_convert_inline p (joinNL d3))),
      some (BodyErr.syntaxErr msg))
  | (d3, none) =>
    (splitNL (html_convert_smallcaps (html_convert_inline p (joinNL (hf d3)))),
      none)

/-- C6: if the body line loop reaches end of file without raising but with
some block span still open — pre-formatted `/x`, front-matter `/f`, poetry
`/p`, list `/l`, no-wrap `/$` or `/*`, index `/i`, or a positive
blockquote nesting count — then `html_convert_body` raises a
`SyntaxError` whose message names the unclosed construct (the first open
one in source order). -/
theorem C6_eof_unclosed (doc : List Str) (st : BodyState)
    (hloop : bodyLoop (initBodyState doc) 1 doc.length = (st, none))
    (hopen : st.preFlag = true ∨ st.frontFlag = true ∨ st.poetryFlag = true
      ∨ st.listFlag = true ∨ st.dollarFlag = true ∨ st.asteriskFlag = true
      ∨ st.indexFlag = true ∨ 0 < st.blockquoteLevel) :
    (html_convert_body_core doc).2 = some (BodyErr.syntaxErr
      (if st.preFlag then
        ("Pre-formatted (/x) markup not closed by end of file").data
      else if st.frontFlag then
        ("Frontmatter (/f) markup not closed by end of file").data
      else if st.poetryFlag then
        ("Poetry (/p) markup not closed by end of file").data
      else if st.listFlag then
        ("List (/l) markup not closed by end of file").data
      else if st.dollarFlag then
        ("List (/$) markup not closed by end of file").data
      else if st.asteriskFlag then
        ("List (/*) markup not closed by end of file").data
      else if st.indexFlag then
        ("List (/i) markup not closed by end of file").data
      else ("Blockquote (/#) not closed by end of file").data)) := by
  have heof : eofCheck st = some (BodyErr.syntaxErr
      (if st.preFlag then
        ("Pre-formatted (/x) markup not closed by end of file").data
      else if st.frontFlag then
        ("Frontmatter (/f) markup not closed by end of file").data
      else if st.poetryFlag then
        ("Poetry (/p) markup not closed by end of file").data
      else if st.listFlag then
        ("List (/l) markup not closed by end of file").data
      else if st.dollarFlag then
        ("List (/$) markup not closed by end of file").data
      else if st.asteriskFlag then
        ("List (/*) markup not closed by end of file").data
      else if st.indexFlag then
        ("List (/i) markup not closed by end of file").data
      else ("Blockquote (/#) not closed by end of file").data)) := by
    unfold eofCheck
    by_cases h1 : st.preFlag = true
    · simp [h1]
    · simp only [Bool.not_eq_true] at h1
      by_cases h2 : st.frontFlag = true
      · simp [h1, h2]
      · simp only [Bool.not_eq_true] at h2
        by_cases h3 : st.poetryFlag = true
        · simp [h1, h2, h3]
        · simp only [Bool.not_eq_true] at h3
          by_cases h4 : st.listFlag = true
          · simp [h1, h2, h3, h4]
          · simp only [Bool.not_eq_true] at h4
            by_cases h5 : st.dollarFlag = true
            · simp [h1, h2, h3, h4, h5]
            · simp only [Bool.not_eq_true] at h5
              by_cases h6 : st.asteriskFlag = true
              · simp [h1, h2, h3, h4, h5, h6]
              · simp only [Bool.not_eq_true] at h6
                by_cases h7 : st.indexFlag = true
                · simp [h1, h2, h3, h4, h5, h6, h7]
                · simp only [Bool.not_eq_true] at h7
                  have h8 : 0 < st.blockquoteLevel := by
                    rcases hopen with h | h | h | h | h | h | h | h <;>
                      first
                        | exact h
                        | (rw [h1] at h; exact absurd h (by simp))
                        | (rw [h2] at h; exact absurd h (by simp))
                        | (rw [h3] at h; exact absurd h (by simp))
                        | (rw [h4] at h; exact absurd h (by simp))
                        | (rw [h5] at h; exact absurd h (by simp))
                        | (rw [h6] at h; exact absurd h (by simp))
                        | (rw [h7] at h; exact absurd h (by simp))
                  simp [h1, h2, h3, h4, h5, h6, h7, h8]
  unfold html_convert_body_core
  rw [hloop]
  simp only [heof]

/-- Witness for C6: the one-line document `/x` ends the file with the
pre-formatted span open, and the conversion reports it. -/
theorem C6_eof_unclosed_witness :
    (html_convert_body_core [("/x").data]).2 = some (BodyErr.syntaxErr
      (("Pre-formatted (/x) markup not closed by end of file").data)) := by
  have h := C6_eof_unclosed [("/x").data]
    (bodyLoop (initBodyState [("/x").data]) 1 1).1 (by decide)
    (Or.inl (by decide))
  rw [h]
  decide

/-- C10: when the body pass aborts with a `SyntaxError`, `html_autogenerate`
only logs it: for every header/footer-insertion function `hf` (which is
skipped) the overall result is the inline-markup pass followed by the
small-caps pass applied to the partially converted document `d3` produced
up to the failure point — the sequence is not stopped, and the edits in
`d3` are not rolled back. -/
theorem C10_autogenerate_continues (p : InlinePrefs)
    (hf : List Str → List Str) (doc d3 : List Str) (msg : Str)
    (hbody : html_convert_body_core
        ((remove_trailing_spaces doc).map html_convert_entities)
      = (d3, some (BodyErr.syntaxErr msg))) :
    html_autogenerate p hf doc =
      (splitNL (html_convert_smallcaps (html_convert_inline p (joinNL d3))),
        some (BodyErr.syntaxErr msg)) := by
  unfold html_autogenerate
  rw [hbody]

/-- Witness for C10: the one-line document `#/` (a stray close blockquote)
makes the body pass raise at line 1; with all-keep inline preferences and
an identity header function the generation still produces the
inline+smallcaps conversion of the partially converted document. -/
theorem C10_autogenerate_continues_witness :
    html_autogenerate ⟨.keep, .keep, .keep, .keep, .keep⟩ id [("#/").data]
      = (splitNL (html_convert_smallcaps (html_convert_inline
            ⟨.keep, .keep, .keep, .keep, .keep⟩ (joinNL [("#/").data]))),
        some (BodyErr.syntaxErr
          (("Line 1: Unmatched close blockquote (#/)").data))) :=
  C10_autogenerate_continues ⟨.keep, .keep, .keep, .keep, .keep⟩ id
    [("#/").data] [("#/").data]
    (("Line 1: Unmatched close blockquote (#/)").data) (by decide)

/-! ## Chapter-heading detection (`html_convert_body`, C7) -/

/-- A plain chapter-heading line: nonempty, free of newline characters,
unchanged by the trailing/leading-blank stripping, by the sub/superscript
conversion and by the thought-break conversion, not mentioning `contents`
(which would move the table-of-contents anchor), and not carrying any of
the block-markup command tokens the line loop tests for.  Each conjunct
mirrors one branch test of the loop, so such a line flows through to the
chapter-heading accumulation untouched. -/
def headingLine (h : Str) : Bool :=
  !h.isEmpty && h.all (fun c => c != '\n')
    && rstripWS h == h && countLeadingWS h == 0 && stripWS h == h
    && html_convert_sub_super h == h
    && (html_convert_tb h).2 == false
    && !containsStr (("contents").data) (pyLower h)
    && pyLower h != ("/x").data && pyLower h != ("/f").data
    && pyLower h != ("/p").data && pyLower h != ("/l").data
    && pyLower h != ("/i").data && pyLower h != ("/c").data
    && pyLower h != ("/r").data
    && !(("/#").data.isPrefixOf h)
    && h != ("#/").data && h != ("/$").data && h != ("/*").data

/-- `chap_heading += (" " if chap_heading else "") + selection.strip()`
for a line that stripping leaves unchanged. -/
def extendHeading (acc h : Str) : Str :=
  acc ++ (if acc.isEmpty then [] else [' ']) ++ h

/-- The heading accumulated from the lines of a chapter-heading block:
concatenation with single spaces between lines. -/
def chapFold (acc : Str) (rem : List Str) : Str := rem.foldl extendHeading acc

/-- One table-of-contents entry:
`auto_toc += f'<a href="{chap_id}">{chap_heading}</a><br>\n'`. -/
def tocEntry (cid heading : Str) : Str :=
  ("<a href=\"").data ++ cid ++ ("\">").data ++ heading
    ++ ("</a><br>").data ++ [('\n' : Char)]

theorem set_getD_self (l : List Str) (n : ℕ) : l.set n (l.getD n []) = l := by
  induction l generalizing n with
  | nil => simp
  | cons a t ih =>
    cases n with
    | zero => simp
    | succ m => simpa [List.set, List.getD] using ih m

theorem setLine_getLine (doc : List Str) (r : ℕ) (x : Str)
    (h : getLine doc r = x) : setLine doc r x = doc := by
  subst h
  exact set_getD_self doc (r - 1)

theorem bodyStep_heading (st : BodyState) (step : ℕ) (h : Str)
    (hline : getLine st.doc step = h) (hh : headingLine h = true)
    (hpre : st.preFlag = false) (hfront : st.frontFlag = false)
    (hpoet : st.poetryFlag = false) (hlist : st.listFlag = false)
    (hdol : st.dollarFlag = false) (hast : st.asteriskFlag = false)
    (hidx : st.indexFlag = false) (hcen : st.centerFlag = false)
    (hrt : st.rightFlag = false) (hch : st.inChapHeading = true) :
    bodyStep st step =
      ({st with chapHeading := extendHeading st.chapHeading h}, none) := by
  unfold headingLine at hh
  simp only [Bool.and_eq_true, bne_iff_ne, ne_eq, beq_iff_eq,
    Bool.not_eq_true', Bool.not_eq_true] at hh
  obtain ⟨⟨⟨⟨⟨⟨⟨⟨⟨⟨⟨⟨⟨⟨⟨⟨⟨⟨hne, hnl⟩, hrs⟩, hcl0⟩, hstr⟩, hss⟩, htb⟩,
    hcont⟩, hx⟩, hf2⟩, hp2⟩, hl2⟩, hi2⟩, hc2⟩, hr2⟩, hpfx⟩, hsharp⟩,
    hdollar⟩, hstar⟩ := hh
  have hset : st.doc.set (step - 1) h = st.doc := by
    rw [show h = getLine st.doc step from hline.symm]
    exact set_getD_self st.doc (step - 1)
  simp only [bodyStep, hline, hcl0, hrs, hss, htb, hcont, modifyLine, hset,
    setLine_getLine st.doc step h hline, List.drop_zero, hpre, hfront,
    hpoet, hlist, hdol, hast, hidx, hcen, hrt, hch, hx, hf2, hp2, hl2,
    hi2, hc2, hr2, hpfx, hsharp, hdollar, hstar, hne, hstr,
    Bool.and_false, Bool.false_and, Bool.and_true, Bool.or_self,
    Bool.not_false, if_false, if_true, Bool.false_eq_true, ite_false,
    ite_true, extendHeading]

theorem bodyStep_blank_end (st : BodyState) (step : ℕ)
    (hline : getLine st.doc step = [])
    (hpre : st.preFlag = false) (hfront : st.frontFlag = false)
    (hpoet : st.poetryFlag = false) (hlist : st.listFlag = false)
    (hdol : st.dollarFlag = false) (hast : st.asteriskFlag = false)
    (hidx : st.indexFlag = false) (hcen : st.centerFlag = false)
    (hrt : st.rightFlag = false) (hch : st.inChapHeading = true) :
    bodyStep st step =
      ({st with
          doc := modifyLine st.doc step (fun l => ("</h2></div>").data ++ l),
          autoToc := st.autoToc ++ tocEntry st.chapId st.chapHeading,
          inChapHeading := false}, none) := by
  have e1 : rstripWS ([] : Str) = [] := rfl
  have e2 : countLeadingWS ([] : Str) = 0 := rfl
  have e3 : html_convert_sub_super ([] : Str) = [] := rfl
  have e4 : (html_convert_tb ([] : Str)).2 = false := by decide
  have e5 : containsStr (("contents").data) (pyLower ([] : Str)) = false := by
    decide
  have e6 : ¬(pyLower ([] : Str) = ("/x").data) := by decide
  have e7 : ¬(pyLower ([] : Str) = ("/f").data) := by decide
  have e8 : ¬(pyLower ([] : Str) = ("/p").data) := by decide
  have e9 : ¬(pyLower ([] : Str) = ("/l").data) := by decide
  have e10 : ¬(pyLower ([] : Str) = ("/i").data) := by decide
  have e11 : ¬(pyLower ([] : Str) = ("/c").data) := by decide
  have e12 : ¬(pyLower ([] : Str) = ("/r").data) := by decide
  have e13 : (("/#").data.isPrefixOf ([] : Str)) = false := by decide
  have e14 : ¬(([] : Str) = ("#/").data) := by decide
  have e15 : ¬(([] : Str) = ("/$").data) := by decide
  have e16 : ¬(([] : Str) = ("/*").data) := by decide
  have hset : st.doc.set (step - 1) ([] : Str) = st.doc := by
    rw [show ([] : Str) = getLine st.doc step from hline.symm]
    exact set_getD_self st.doc (step - 1)
  simp only [bodyStep, hline, modifyLine, setLine, hset, List.drop_zero,
    hpre, hfront, hpoet, hlist, hdol, hast, hidx, hcen, hrt, hch, e1, e2,
    e3, e4, e5, e6, e7, e8, e9, e10, e11, e12, e13, e14, e15, e16, tocEntry,
    List.append_assoc, List.append_nil, List.isEmpty_nil,
    Bool.not_true, Bool.and_false,
    Bool.false_and, Bool.and_true, Bool.or_self, if_false, if_true,
    Bool.false_eq_true, ite_false, ite_true]

theorem bodyLoop_succ (st : BodyState) (step fuel : ℕ) :
    bodyLoop st step (fuel + 1) =
      match bodyStep st step with
      | (st2, some e) => (st2, some e)
      | (st2, none) => bodyLoop st2 (step + 1) fuel := rfl

theorem bodyLoop_zero (st : BodyState) (step : ℕ) :
    bodyLoop st step 0 = (st, none) := rfl

theorem bodyLoop_heading (rem : List Str) : ∀ (st : BodyState) (s : ℕ),
    (∀ i, i < rem.length → getLine st.doc (s + i) = rem.getD i []
      ∧ headingLine (rem.getD i []) = true) →
    getLine st.doc (s + rem.length) = [] →
    st.preFlag = false → st.frontFlag = false → st.poetryFlag = false →
    st.listFlag = false → st.dollarFlag = false → st.asteriskFlag = false →
    st.indexFlag = false → st.centerFlag = false → st.rightFlag = false →
    st.inChapHeading = true →
    bodyLoop st s (rem.length + 1) =
      ({st with
          doc := modifyLine st.doc (s + rem.length)
            (fun l => ("</h2></div>").data ++ l),
          chapHeading := chapFold st.chapHeading rem,
          autoToc := st.autoToc
            ++ tocEntry st.chapId (chapFold st.chapHeading rem),
          inChapHeading := false}, none) := by
  induction rem with
  | nil =>
    intro st s hrem hblank hpre hfront hpoet hlist hdol hast hidx hcen
      hrt hch
    rw [bodyLoop_succ]
    rw [bodyStep_blank_end st s (by simpa using hblank) hpre hfront hpoet
      hlist hdol hast hidx hcen hrt hch]
    simp [bodyLoop_zero, chapFold]
  | cons h t ih =>
    intro st s hrem hblank hpre hfront hpoet hlist hdol hast hidx hcen
      hrt hch
    have h0 := hrem 0 (by simp)
    rw [bodyLoop_succ]
    rw [bodyStep_heading st s h (by simpa using h0.1) (by simpa using h0.2)
      hpre hfront hpoet hlist hdol hast hidx hcen hrt hch]
    have harith : ∀ j : ℕ, s + (j + 1) = (s + 1) + j := by omega
    have hrem' : ∀ i, i < t.length →
        getLine ({st with chapHeading := extendHeading st.chapHeading h}
            : BodyState).doc ((s + 1) + i) = t.getD i []
          ∧ headingLine (t.getD i []) = true := by
      intro i hi
      have hstep := hrem (i + 1) (by simp; omega)
      refine ⟨?_, by simpa using hstep.2⟩
      have := hstep.1
      rw [harith i] at this
      simpa using this
    have hblank' : getLine ({st with
        chapHeading := extendHeading st.chapHeading h} : BodyState).doc
          ((s + 1) + t.length) = [] := by
      have := hblank
      simp only [List.length_cons] at this
      rw [harith t.length] at this
      simpa using this
    simp only [List.length_cons]
    rw [ih ({st with chapHeading := extendHeading st.chapHeading h})
      (s + 1) hrem' hblank' hpre hfront hpoet hlist hdol hast hidx hcen
      hrt hch]
    simp only [List.length_cons, chapFold, List.foldl_cons]
    rw [← harith t.length]

theorem splitNL_cons_noNL (x y : Str) (hx : ∀ c ∈ x, c ≠ '\n') :
    splitNL (x ++ '\n' :: y) = x :: splitNL y := by
  induction x with
  | nil => simp [splitNL]
  | cons c t ih =>
    have hc : c ≠ '\n' := hx c (by simp)
    have ih' := ih (fun d hd => hx d (by simp [hd]))
    rw [List.cons_append]
    simp only [splitNL, ih', if_neg hc]

theorem headingLine_no_newline (h : Str) (hh : headingLine h = true) :
    ∀ c ∈ h, c ≠ '\n' := by
  unfold headingLine at hh
  simp only [Bool.and_eq_true] at hh
  have hall := hh.1.1.1.1.1.1.1.1.1.1.1.1.1.1.1.1.1.2
  intro c hc
  have := List.all_eq_true.mp hall c hc
  simpa using this

theorem mem_collapseRunsGo (p : Char → Bool) (r : Char) (b : Bool)
    (s : Str) (c : Char) (hc : c ∈ collapseRunsGo p r b s) :
    c = r ∨ c ∈ s := by
  induction s generalizing b with
  | nil => simp [collapseRunsGo] at hc
  | cons a t ih =>
    unfold collapseRunsGo at hc
    by_cases hp : p a = true
    · simp only [hp, if_true] at hc
      by_cases hb : b = true
      · subst hb
        simp only [if_true] at hc
        rcases ih true hc with h | h
        · exact Or.inl h
        · exact Or.inr (List.mem_cons_of_mem a h)
      · simp only [Bool.not_eq_true] at hb
        subst hb
        simp only [Bool.false_eq_true, if_false, List.mem_cons] at hc
        rcases hc with rfl | hc
        · exact Or.inl rfl
        · rcases ih true hc with h | h
          · exact Or.inl h
          · exact Or.inr (List.mem_cons_of_mem a h)
    · simp only [Bool.not_eq_true] at hp
      simp only [hp, Bool.false_eq_true, if_false, List.mem_cons] at hc
      rcases hc with rfl | hc
      · exact Or.inr (List.mem_cons_self c t)
      · rcases ih false hc with h | h
        · exact Or.inl h
        · exact Or.inr (List.mem_cons_of_mem a h)

theorem make_anchor_no_newline (s : Str) : ∀ c ∈ make_anchor s, c ≠ '\n' := by
  intro c hc
  simp only [make_anchor, collapseRuns] at hc
  rcases mem_collapseRunsGo _ _ _ _ _ hc with rfl | h1
  · decide
  · rcases mem_collapseRunsGo _ _ _ _ _ h1 with rfl | h2
    · decide
    · obtain ⟨-, hpred⟩ := List.mem_filter.mp h2
      intro hEq
      subst hEq
      revert hpred
      decide

theorem chapFold_no_newline (rem : List Str) : ∀ (acc : Str),
    (∀ h ∈ rem, headingLine h = true) → (∀ c ∈ acc, c ≠ '\n') →
    ∀ c ∈ chapFold acc rem, c ≠ '\n' := by
  induction rem with
  | nil => intro acc _ hacc c hc; exact hacc c hc
  | cons h t ih =>
    intro acc hrem hacc c hc
    have hh : headingLine h = true := hrem h (by simp)
    have hext : ∀ c ∈ extendHeading acc h, c ≠ '\n' := by
      intro d hd
      unfold extendHeading at hd
      simp only [List.append_assoc, List.mem_append] at hd
      rcases hd with hd | hd | hd
      · exact hacc d hd
      · rcases (by simpa using List.mem_ite_nil_left.mp hd :
          ¬acc.isEmpty = true ∧ d ∈ [' ']) with ⟨-, hsp⟩
        simp only [List.mem_singleton] at hsp
        subst hsp
        decide
      · exact headingLine_no_newline h hh d hd
    exact ih (extendHeading acc h) (fun g hg => hrem g (by simp [hg]))
      hext c (by simpa [chapFold] using hc)

theorem getD_append_lt (L L2 : List Str) (i : ℕ) (hi : i < L.length) :
    (L ++ L2).getD i [] = L.getD i [] := by
  induction L generalizing i with
  | nil => exact absurd hi (by simp)
  | cons a t ih =>
    cases i with
    | zero => rfl
    | succ j => simpa using ih j (by simpa using hi)

theorem set_append_len (L : List Str) (x v : Str) :
    (L ++ [x]).set L.length v = L ++ [v] := by
  induction L with
  | nil => rfl
  | cons a t ih => simp [ih]

theorem getD_append_len (L : List Str) (x : Str) :
    (L ++ [x]).getD L.length [] = x := by
  induction L with
  | nil => rfl
  | cons a t ih => simp [ih]

theorem getLine_prefix4 (r1 r2 r3 r4 : Str) (rest : List Str) (i : ℕ) :
    getLine ([r1, r2, r3, r4] ++ rest) (5 + i) = getLine rest (1 + i) := by
  unfold getLine
  rw [show 5 + i - 1 = i + 4 from by omega, show 1 + i - 1 = i from by omega]
  rfl

theorem setLine_prefix4 (r1 r2 r3 r4 : Str) (rest : List Str) (i : ℕ)
    (v : Str) :
    setLine ([r1, r2, r3, r4] ++ rest) (5 + i) v
      = [r1, r2, r3, r4] ++ setLine rest (1 + i) v := by
  unfold setLine
  rw [show 5 + i - 1 = i + 4 from by omega, show 1 + i - 1 = i from by omega]
  rfl

theorem getLine_append_lt (L : List Str) (x : Str) (i : ℕ)
    (hi : i < L.length) :
    getLine (L ++ [x]) (1 + i) = L.getD i [] := by
  unfold getLine
  rw [show 1 + i - 1 = i from by omega]
  exact getD_append_lt L [x] i hi

theorem getLine_append_len (L : List Str) (x : Str) :
    getLine (L ++ [x]) (1 + L.length) = x := by
  unfold getLine
  rw [show 1 + L.length - 1 = L.length from by omega]
  exact getD_append_len L x

theorem setLine_append_len (L : List Str) (x v : Str) :
    setLine (L ++ [x]) (1 + L.length) v = L ++ [v] := by
  unfold setLine
  rw [show 1 + L.length - 1 = L.length from by omega]
  exact set_append_len L x v

theorem splitNL_tocText (e : Str) (he : ∀ c ∈ e, c ≠ '\n') :
    splitNL (tocText (e ++ [('\n' : Char)])) =
      [[], ("<!-- Autogenerated TOC. Modify or delete as required. -->").data,
        ("<p>").data, e, ("</p>").data,
        ("<!-- End Autogenerated TOC. -->").data, [], []] := by
  have hmain : tocText (e ++ [('\n' : Char)]) =
      ([] : Str) ++ '\n'
        :: ((("<!-- Autogenerated TOC. Modify or delete as required. -->").data)
        ++ '\n' :: ((("<p>").data)
        ++ '\n' :: (e
        ++ '\n' :: (("</p>\n<!-- End Autogenerated TOC. -->\n\n").data)))) := by
    unfold tocText
    simp [List.append_assoc]
  rw [hmain]
  rw [splitNL_cons_noNL ([] : Str) _ (by simp)]
  rw [splitNL_cons_noNL
    ((("<!-- Autogenerated TOC. Modify or delete as required. -->").data)) _
    (by decide)]
  rw [splitNL_cons_noNL ((("<p>").data)) _ (by decide)]
  rw [splitNL_cons_noNL e _ he]
  rw [show splitNL (("</p>\n<!-- End Autogenerated TOC. -->\n\n").data)
    = [("</p>").data, ("<!-- End Autogenerated TOC. -->").data, [], []]
    from by decide]

theorem bodyLoop_step_none (st st2 : BodyState) (step fuel : ℕ)
    (h : bodyStep st step = (st2, none)) :
    bodyLoop st step (fuel + 1) = bodyLoop st2 (step + 1) fuel := by
  rw [bodyLoop_succ, h]

theorem bodyStep_blank_early (st : BodyState) (step : ℕ)
    (hline : getLine st.doc step = [])
    (hlt : ¬ 4 ≤ step)
    (hpre : st.preFlag = false) (hfront : st.frontFlag = false)
    (hpoet : st.poetryFlag = false) (hlist : st.listFlag = false)
    (hdol : st.dollarFlag = false) (hast : st.asteriskFlag = false)
    (hidx : st.indexFlag = false) (hcen : st.centerFlag = false)
    (hrt : st.rightFlag = false) (hch : st.inChapHeading = false)
    (hpara : st.inPara = false) :
    bodyStep st step = (st, none) := by
  obtain ⟨doc, cs, ich, cid, chh, atoc, ipara, ifp, istz, pf, ff, pof, lf,
    idxf, dof, asf, cef, rif, rbln, pind, bql, rll, ibl, jbs, cssi⟩ := st
  have hpre2 : pf = false := hpre
  have hfront2 : ff = false := hfront
  have hpoet2 : pof = false := hpoet
  have hlist2 : lf = false := hlist
  have hdol2 : dof = false := hdol
  have hast2 : asf = false := hast
  have hidx2 : idxf = false := hidx
  have hcen2 : cef = false := hcen
  have hrt2 : rif = false := hrt
  have hch2 : ich = false := hch
  have hpara2 : ipara = false := hpara
  subst hpre2 hfront2 hpoet2 hlist2 hdol2 hast2 hidx2 hcen2 hrt2 hch2
    hpara2
  have hline2 : getLine doc step = [] := hline
  have e1 : rstripWS ([] : Str) = [] := rfl
  have e2 : countLeadingWS ([] : Str) = 0 := rfl
  have e3 : html_convert_sub_super ([] : Str) = [] := rfl
  have e4 : (html_convert_tb ([] : Str)).2 = false := by decide
  have e5 : containsStr (("contents").data) (pyLower ([] : Str)) = false := by
    decide
  have e6 : ¬(pyLower ([] : Str) = ("/x").data) := by decide
  have e7 : ¬(pyLower ([] : Str) = ("/f").data) := by decide
  have e8 : ¬(pyLower ([] : Str) = ("/p").data) := by decide
  have e9 : ¬(pyLower ([] : Str) = ("/l").data) := by decide
  have e10 : ¬(pyLower ([] : Str) = ("/i").data) := by decide
  have e11 : ¬(pyLower ([] : Str) = ("/c").data) := by decide
  have e12 : ¬(pyLower ([] : Str) = ("/r").data) := by decide
  have e13 : (("/#").data.isPrefixOf ([] : Str)) = false := by decide
  have e14 : ¬(([] : Str) = ("#/").data) := by decide
  have e15 : ¬(([] : Str) = ("/$").data) := by decide
  have e16 : ¬(([] : Str) = ("/*").data) := by decide
  have hset : doc.set (step - 1) ([] : Str) = doc := by
    rw [show ([] : Str) = getLine doc step from hline2.symm]
    exact set_getD_self doc (step - 1)
  simp only [bodyStep, hline2, modifyLine, setLine, hset, List.drop_zero,
    e1, e2, e3, e4, e5, e6, e7, e8, e9, e10, e11, e12, e13, e14, e15, e16,
    decide_eq_false hlt, List.isEmpty_nil, Bool.not_true, Bool.and_false,
    Bool.false_and, Bool.and_true, Bool.or_self, if_false, if_true,
    Bool.false_eq_true, ite_false, ite_true]

theorem bodyStep_chapter_open (st : BodyState) (step : ℕ) (d : Char)
    (ds : Str)
    (hline : getLine st.doc step = [])
    (hm3 : getLine st.doc (step - 3) = [])
    (hm2 : getLine st.doc (step - 2) = [])
    (hm1 : getLine st.doc (step - 1) = [])
    (hnx : st.doc.getD step [] = d :: ds)
    (h4 : 4 ≤ step)
    (hpre : st.preFlag = false) (hfront : st.frontFlag = false)
    (hpoet : st.poetryFlag = false) (hlist : st.listFlag = false)
    (hdol : st.dollarFlag = false) (hast : st.asteriskFlag = false)
    (hidx : st.indexFlag = false) (hcen : st.centerFlag = false)
    (hrt : st.rightFlag = false) (hch : st.inChapHeading = false)
    (hpara : st.inPara = false) :
    bodyStep st step =
      ({st with
          doc := modifyLine (modifyLine st.doc (step - 1)
              (fun l => ("<div class=\"chapter\">").data ++ l)) step
            (fun l => ("<h2 class=\"nobreak\" id=\"").data
              ++ make_anchor (getLine st.doc (step + 1)) ++ ("\">").data
              ++ l),
          chapId := make_anchor (getLine st.doc (step + 1)),
          inChapHeading := true,
          chapHeading := []}, none) := by
  have e1 : rstripWS ([] : Str) = [] := rfl
  have e2 : countLeadingWS ([] : Str) = 0 := rfl
  have e3 : html_convert_sub_super ([] : Str) = [] := rfl
  have e4 : (html_convert_tb ([] : Str)).2 = false := by decide
  have e5 : containsStr (("contents").data) (pyLower ([] : Str)) = false := by
    decide
  have e6 : ¬(pyLower ([] : Str) = ("/x").data) := by decide
  have e7 : ¬(pyLower ([] : Str) = ("/f").data) := by decide
  have e8 : ¬(pyLower ([] : Str) = ("/p").data) := by decide
  have e9 : ¬(pyLower ([] : Str) = ("/l").data) := by decide
  have e10 : ¬(pyLower ([] : Str) = ("/i").data) := by decide
  have e11 : ¬(pyLower ([] : Str) = ("/c").data) := by decide
  have e12 : ¬(pyLower ([] : Str) = ("/r").data) := by decide
  have e13 : (("/#").data.isPrefixOf ([] : Str)) = false := by decide
  have e14 : ¬(([] : Str) = ("#/").data) := by decide
  have e15 : ¬(([] : Str) = ("/$").data) := by decide
  have e16 : ¬(([] : Str) = ("/*").data) := by decide
  have hset : st.doc.set (step - 1) ([] : Str) = st.doc := by
    rw [show ([] : Str) = getLine st.doc step from hline.symm]
    exact set_getD_self st.doc (step - 1)
  simp only [bodyStep, hline, modifyLine, setLine, hset, List.drop_zero,
    hpre, hfront, hpoet, hlist, hdol, hast, hidx, hcen, hrt, hch, hpara,
    e1, e2, e3, e4, e5, e6, e7, e8, e9, e10, e11, e12, e13, e14, e15, e16,
    hm3, hm2, hm1, hnx, decide_eq_true h4, List.isEmpty_nil, Bool.not_true,
    Bool.and_false, Bool.false_and, Bool.and_true, Bool.true_and,
    Bool.or_self, if_false, if_true, Bool.false_eq_true, ite_false,
    ite_true, decide_True]

theorem set_prefix4 (r1 r2 r3 r4 : Str) (rest : List Str) (i : ℕ)
    (v : Str) :
    ([r1, r2, r3, r4] ++ rest).set (i + 4) v
      = [r1, r2, r3, r4] ++ rest.set i v := rfl

set_option maxHeartbeats 1000000 in
/-- C7: in a document of four blank lines, then one or more plain heading
lines, then a blank line, the body conversion recognises the fourth blank
line (preceded by exactly three more blanks and followed by non-blank
text) as a chapter boundary: the following non-blank lines up to the next
blank are concatenated single-spaced into the heading text, the heading
block is wrapped in `<h2 class="nobreak" id=...>` … `</h2></div>` inside
a `<div class="chapter">`, the id is auto-generated by `make_anchor` from
the line after the boundary, and exactly one table-of-contents entry
(anchor link plus heading text) is produced, inserted in the
autogenerated-TOC block at the top of the file. -/
theorem C7_chapter_heading (h1 : Str) (hs : List Str)
    (hh1 : headingLine h1 = true)
    (hhs : ∀ h ∈ hs, headingLine h = true) :
    html_convert_body_core ([[], [], [], []] ++ (h1 :: hs) ++ [[]]) =
      ([[],
        ("<!-- Autogenerated TOC. Modify or delete as required. -->").data,
        ("<p>").data,
        ("<a href=\"").data ++ make_anchor h1 ++ ("\">").data
          ++ chapFold [] (h1 :: hs) ++ ("</a><br>").data,
        ("</p>").data,
        ("<!-- End Autogenerated TOC. -->").data,
        [], [], [],
        ("<div class=\"chapter\">").data,
        ("<h2 class=\"nobreak\" id=\"").data ++ make_anchor h1
          ++ ("\">").data]
        ++ (h1 :: hs) ++ [("</h2></div>").data], none) := by
  obtain ⟨c, t, rfl⟩ : ∃ c t, h1 = c :: t := by
    cases h1 with
    | nil => exact absurd hh1 (by decide)
    | cons c t => exact ⟨c, t, rfl⟩
  have hall : ∀ h ∈ (c :: t) :: hs, headingLine h = true := by
    intro h hm
    rcases List.mem_cons.mp hm with heq | hmem
    · rw [heq]; exact hh1
    · exact hhs h hmem
  unfold html_convert_body_core
  have hlen : (([[], [], [], []] : List Str) ++ ((c :: t) :: hs)
      ++ ([[]] : List Str)).length = hs.length + 2 + 1 + 1 + 1 + 1 := by
    simp
  rw [hlen]
  rw [bodyLoop_step_none _ _ _ _
    (bodyStep_blank_early (initBodyState
        ([[], [], [], []] ++ ((c :: t) :: hs) ++ [[]])) 1
      (by rfl) (by omega) rfl rfl rfl rfl rfl rfl rfl rfl rfl rfl rfl)]
  rw [bodyLoop_step_none _ _ _ _
    (bodyStep_blank_early (initBodyState
        ([[], [], [], []] ++ ((c :: t) :: hs) ++ [[]])) (1 + 1)
      (by rfl) (by omega) rfl rfl rfl rfl rfl rfl rfl rfl rfl rfl rfl)]
  rw [bodyLoop_step_none _ _ _ _
    (bodyStep_blank_early (initBodyState
        ([[], [], [], []] ++ ((c :: t) :: hs) ++ [[]])) (1 + 1 + 1)
      (by rfl) (by omega) rfl rfl rfl rfl rfl rfl rfl rfl rfl rfl rfl)]
  rw [bodyLoop_step_none _ _ _ _
    (bodyStep_chapter_open (initBodyState
        ([[], [], [], []] ++ ((c :: t) :: hs) ++ [[]])) (1 + 1 + 1 + 1) c t
      (by rfl) (by rfl) (by rfl) (by rfl) (by rfl) (by omega) rfl rfl rfl
      rfl rfl rfl rfl rfl rfl rfl rfl)]
  rw [show (initBodyState
      ([[], [], [], []] ++ ((c :: t) :: hs) ++ [[]])).doc
    = [[], [], [], []] ++ ((c :: t) :: hs) ++ [[]] from rfl]
  rw [show getLine ([[], [], [], []] ++ ((c :: t) :: hs) ++ [[]])
      (1 + 1 + 1 + 1 + 1) = c :: t from rfl]
  rw [show modifyLine (modifyLine
        ([[], [], [], []] ++ ((c :: t) :: hs) ++ [[]]) (1 + 1 + 1 + 1 - 1)
        (fun l => ("<div class=\"chapter\">").data ++ l)) (1 + 1 + 1 + 1)
        (fun l => ("<h2 class=\"nobreak\" id=\"").data
          ++ make_anchor (c :: t) ++ ("\">").data ++ l)
    = [[], [], ("<div class=\"chapter\">").data,
        ("<h2 class=\"nobreak\" id=\"").data ++ make_anchor (c :: t)
          ++ ("\">").data ++ []]
      ++ ((c :: t) :: hs) ++ [[]] from rfl]
  rw [show (1 + 1 + 1 + 1 + 1 : ℕ) = 5 from rfl]
  rw [show hs.length + 2 = ((c :: t) :: hs).length + 1 from by simp]
  have hrem : ∀ i, i < ((c :: t) :: hs).length →
      getLine ([[], [], ("<div class=\"chapter\">").data,
          ("<h2 class=\"nobreak\" id=\"").data ++ make_anchor (c :: t)
            ++ ("\">").data ++ []]
        ++ ((c :: t) :: hs) ++ [[]]) (5 + i)
        = ((c :: t) :: hs).getD i []
      ∧ headingLine (((c :: t) :: hs).getD i []) = true := by
    intro i hi
    constructor
    · rw [List.append_assoc, getLine_prefix4,
        getLine_append_lt ((c :: t) :: hs) [] i hi]
    · have hmem : ((c :: t) :: hs).getD i [] ∈ (c :: t) :: hs := by
        rw [List.getD_eq_getElem _ _ hi]
        exact List.getElem_mem hi
      exact hall _ hmem
  have hblank : getLine ([[], [], ("<div class=\"chapter\">").data,
        ("<h2 class=\"nobreak\" id=\"").data ++ make_anchor (c :: t)
          ++ ("\">").data ++ []]
      ++ ((c :: t) :: hs) ++ [[]]) (5 + ((c :: t) :: hs).length) = [] := by
    rw [List.append_assoc, getLine_prefix4, getLine_append_len]
  rw [bodyLoop_heading ((c :: t) :: hs) _ 5 hrem hblank rfl rfl rfl rfl rfl
    rfl rfl rfl rfl rfl]
  have hdocF : modifyLine ([[], [], ("<div class=\"chapter\">").data,
          ("<h2 class=\"nobreak\" id=\"").data ++ make_anchor (c :: t)
            ++ ("\">").data ++ []]
        ++ ((c :: t) :: hs) ++ [[]]) (5 + ((c :: t) :: hs).length)
        (fun l => ("</h2></div>").data ++ l)
      = [[], [], ("<div class=\"chapter\">").data,
          ("<h2 class=\"nobreak\" id=\"").data ++ make_anchor (c :: t)
            ++ ("\">").data ++ []]
        ++ (((c :: t) :: hs) ++ [("</h2></div>").data]) := by
    unfold modifyLine
    rw [List.append_assoc, getLine_prefix4, getLine_append_len]
    rw [show 5 + ((c :: t) :: hs).length - 1 = ((c :: t) :: hs).length + 4
      from by omega]
    rw [set_prefix4, set_append_len]
    simp
  have henl : ∀ ch ∈ (("<a href=\"").data ++ make_anchor (c :: t)
      ++ ("\">").data ++ chapFold [] ((c :: t) :: hs)
      ++ ("</a><br>").data), ch ≠ '\n' := by
    intro ch hch
    simp only [List.append_assoc, List.mem_append] at hch
    rcases hch with hch | hch | hch | hch | hch
    · exact (by decide : ∀ x ∈ (("<a href=\"").data), x ≠ '\n') ch hch
    · exact make_anchor_no_newline _ ch hch
    · exact (by decide : ∀ x ∈ (("\">").data), x ≠ '\n') ch hch
    · exact chapFold_no_newline ((c :: t) :: hs) [] hall (by simp) ch hch
    · exact (by decide : ∀ x ∈ (("</a><br>").data), x ≠ '\n') ch hch
  simp only [insertAtLineStart, eofCheck, initBodyState, tocEntry,
    List.nil_append, hdocF]
  rw [splitNL_tocText _ henl]
  simp [getLine]

/-- Witness for C7 at a concrete two-line heading `CHAPTER I` /
`THE BEGINNING`. -/
theorem C7_chapter_heading_witness :
    headingLine (("CHAPTER I").data) = true ∧
    html_convert_body_core ([[], [], [], []]
        ++ (("CHAPTER I").data :: [("THE BEGINNING").data]) ++ [[]])
      = ([[],
          ("<!-- Autogenerated TOC. Modify or delete as required. -->").data,
          ("<p>").data,
          ("<a href=\"").data ++ make_anchor (("CHAPTER I").data)
            ++ ("\">").data
            ++ chapFold [] (("CHAPTER I").data :: [("THE BEGINNING").data])
            ++ ("</a><br>").data,
          ("</p>").data,
          ("<!-- End Autogenerated TOC. -->").data,
          [], [], [],
          ("<div class=\"chapter\">").data,
          ("<h2 class=\"nobreak\" id=\"").data
            ++ make_anchor (("CHAPTER I").data) ++ ("\">").data]
          ++ (("CHAPTER I").data :: [("THE BEGINNING").data])
          ++ [("</h2></div>").data], none) :=
  ⟨by decide, C7_chapter_heading (("CHAPTER I").data)
    [("THE BEGINNING").data] (by decide) (by decide)⟩
